import Mathlib

/-!
A verification development for the `relay` peer-to-peer gossip engine
(`relay_core/src/{crypto,message,payload,mailroom}.rs` and
`relay_daemon/src/daemon/exchange.rs`).

The Rust code is shallowly embedded.  Conventions of the embedding:

* Wall-clock instants (`DateTime<Utc>`) are modelled as `Nat` seconds since
  an epoch; sub-second precision is dropped (the code zeroes nanoseconds at
  every projection it takes).
* Ed25519 is modelled as an ideal signature scheme: a secret key is an
  abstract identifier, its public key is the same identifier, signing
  produces a symbolic signature value recording the signer and the exact
  bytes signed, and `verify_strict` succeeds exactly on that value.  This
  captures determinism, correctness and unforgeability of Ed25519, which is
  what the code relies on.
* JSON texts are modelled by their parse trees (`Raw`).  `serde_json`
  serialization of the record types is modelled by injective constructors,
  and `get_canon_json_bytes` — which parses a JSON text, sorts object keys
  and prints compactly — becomes the identity on parse trees, because the
  model never distinguishes two texts with the same tree.  Byte strings that
  are signed are therefore also `Raw` values.
* Base64 key strings are modelled by `KeyStr`: either the encoding of a
  valid 32-byte key, or one of the (collapsed) malformed alternatives.
* Rust `HashSet`/`HashMap` become lists of elements / of key-value pairs;
  iteration order of a `HashMap` is unspecified in Rust, and the list order
  plays that role here.
* Fallible archive access (`trait Archive`) becomes an explicit record of
  state-passing functions, so that archive failures can be injected.
-/

namespace Relay

/-- `MessageContents` from `message.rs`: `(uuid, author, line)`, all strings. -/
structure MessageContents where
  uuid : String
  author : String
  line : String
deriving DecidableEq, Repr

/-- A string in a key position: either the standard base64 encoding of a
valid 32-byte Ed25519 public key (identified by `id`), or a malformed
string (bad base64, wrong length, or not a curve point — collapsed). -/
inductive KeyStr where
  | good (id : Nat)
  | bad (n : Nat)
deriving DecidableEq, Repr

/-- Parse trees of the JSON texts the payload pipeline handles.
`envNil`/`envCons` spell out a JSON array of envelope objects, `envObj` an
envelope object (its `message.certificate` fields inlined, its
`message.contents` subtree kept raw exactly as `UnverifiedMessage` does),
`contentsObj` a `MessageContents` object, `sigOf` the base64 signature
string produced by signing `bytes` with secret key `skId`, `bogus` any
other string in a signature position, and `other` any other JSON text. -/
inductive Raw where
  | envNil
  | envCons (head : Raw) (tail : Raw)
  | envObj (forwarded : List KeyStr) (ttl : Nat) (certKey : KeyStr) (certSig : Raw)
      (contentsRaw : Raw)
  | contentsObj (c : MessageContents)
  | sigOf (skId : Nat) (bytes : Raw)
  | bogus (n : Nat)
  | other (n : Nat)
deriving DecidableEq, Repr

/-- `crypto.rs` `PublicKey`: an opaque valid verifying key, compared by
byte identity. -/
structure PublicKey where
  id : Nat
deriving DecidableEq, Repr

/-- `crypto.rs` `SecretKey`: an opaque signing key. -/
structure SecretKey where
  id : Nat
deriving DecidableEq, Repr

/-- `crypto.rs` `NewKeyError`. -/
inductive NewKeyError where
  | CannotDecode
  | IncorrectLength
  | InvalidKey
deriving DecidableEq, Repr

/-- `SecretKey::public_key`: the verifying key of a signing key (a
bijection in ed25519-dalek, so the same identifier in the model). -/
def SecretKey.public_key (sk : SecretKey) : PublicKey :=
  ⟨sk.id⟩

/-- `PublicKey::new_from_b64`: decode a base64 string into a public key;
fails on bad base64, wrong length or an invalid key. -/
def PublicKey.new_from_b64 (s : KeyStr) : Except NewKeyError PublicKey :=
  match s with
  | .good id => .ok ⟨id⟩
  | .bad _ => .error .CannotDecode

/-- `PublicKey::to_string`: the standard base64 encoding of the key bytes. -/
def PublicKey.to_string (pk : PublicKey) : KeyStr :=
  .good pk.id

/-- `SecretKey::sign`: the base64 string of the Ed25519 signature over
`message` (deterministic in ed25519-dalek). -/
def SecretKey.sign (sk : SecretKey) (message : Raw) : Raw :=
  .sigOf sk.id message

/-- `PublicKey::verify`: decode the signature string and `verify_strict` it
against `message`; in the ideal model this succeeds exactly on the
signature the key's owner produced over exactly these bytes. -/
def PublicKey.verify (pk : PublicKey) (message : Raw) (signature : Raw) : Bool :=
  signature = Raw.sigOf pk.id message

/-- `crypto.rs` `get_canon_json_bytes`: parse a JSON text, canonicalize
(sort keys, strip whitespace) and print compactly.  On parse trees this is
the identity: the model never distinguishes two texts with one tree.  The
Rust error case (input not JSON) is unreachable here because every `Raw`
is a parse tree. -/
def get_canon_json_bytes (json : Raw) : Raw :=
  json

/-- `Certificate` from `message.rs`: a base64 key string and a base64
signature string.  Modelled from the spec (§3) and the uses in
`payload.rs`/`mailroom.rs`; the current `message.rs` defining it is not in
the sources provided (the file present is a stale draft). -/
structure Certificate where
  key : KeyStr
  signature : Raw
deriving DecidableEq, Repr

/-- `Message` from `message.rs`: a certificate over `contents`.  Modelled
from the spec (§3) and the uses in `payload.rs`/`mailroom.rs`. -/
structure Message where
  certificate : Certificate
  contents : MessageContents
deriving DecidableEq, Repr

/-- `Envelope` from `message.rs`: forwarding log, remaining hops (`u8`),
and the carried message.  Modelled from the spec (§3) and the uses in
`payload.rs`/`mailroom.rs`. -/
structure Envelope where
  forwarded : List KeyStr
  ttl : Nat
  message : Message
deriving DecidableEq, Repr

/-- `mailroom.rs` `NextLine`. -/
structure NextLine where
  line : String
  author : String
deriving DecidableEq, Repr

/-- serde serialization of one `Envelope` (the shape `UnverifiedEnvelope`
deserializes). -/
def Envelope.to_raw (e : Envelope) : Raw :=
  .envObj e.forwarded e.ttl e.message.certificate.key e.message.certificate.signature
    (.contentsObj e.message.contents)

/-- serde serialization of `Vec<Envelope>` (the `envelopes` array of an
outgoing payload). -/
def envelopes_to_raw : List Envelope → Raw
  | [] => .envNil
  | e :: rest => .envCons e.to_raw (envelopes_to_raw rest)

/-- `payload.rs` `UntrustedPayloadError`. -/
inductive UntrustedPayloadError where
  | MalformedPublicKey
  | PublicKeyNotTrusted
  | CannotParseJson
  | CannotVerify
deriving DecidableEq, Repr

/-- `payload.rs` `UnverifiedEnvelope` (with its `UnverifiedMessage`
inlined): `forwarded`, `ttl` and the message certificate are parsed, the
message `contents` subtree is kept raw. -/
structure UnverifiedEnvelope where
  forwarded : List KeyStr
  ttl : Nat
  certificate : Certificate
  contents_raw_json : Raw
deriving DecidableEq, Repr

/-- serde deserialization of one array element as an `UnverifiedEnvelope`;
fails unless it is an envelope object whose `ttl` fits in a `u8`. -/
def parse_unverified_envelope : Raw → Option UnverifiedEnvelope
  | .envObj forwarded ttl certKey certSig contentsRaw =>
      if ttl < 256 then some ⟨forwarded, ttl, ⟨certKey, certSig⟩, contentsRaw⟩ else none
  | _ => none

/-- serde deserialization of the `envelopes` raw subtree as
`Vec<UnverifiedEnvelope>`. -/
def parse_unverified_envelopes : Raw → Option (List UnverifiedEnvelope)
  | .envNil => some []
  | .envCons head tail => do
      let ue ← parse_unverified_envelope head
      let rest ← parse_unverified_envelopes tail
      pure (ue :: rest)
  | _ => none

/-- serde deserialization of a raw `contents` subtree as
`MessageContents`. -/
def parse_contents : Raw → Option MessageContents
  | .contentsObj c => some c
  | _ => none

/-- `payload.rs` `check_signature`: canonicalize the raw subtree and verify
the base64 signature string against it under `key`. -/
def check_signature (signature : Raw) (key : PublicKey) (raw_value : Raw) :
    Except UntrustedPayloadError Unit :=
  let bytes := get_canon_json_bytes raw_value
  if key.verify bytes signature then .ok () else .error .CannotVerify

/-- `payload.rs` `UntrustedPayload`: outer certificate parsed, `envelopes`
subtree kept raw. -/
structure UntrustedPayload where
  certificate : Certificate
  envelopes_raw_value : Raw
deriving DecidableEq, Repr

/-- `payload.rs` `TrustedPayload`. -/
structure TrustedPayload where
  public_key : PublicKey
  certificate : Certificate
  envelopes : List Envelope
  unverified_messages_count : Nat
deriving DecidableEq, Repr

/-- The per-envelope loop of `UntrustedPayload::try_trust`: decode each
inner certificate key (`MalformedPublicKey` aborts the whole payload),
check the inner signature over the raw contents; on success parse the
contents (`CannotParseJson` aborts) and keep the envelope, on
`CannotVerify` drop it and count it. -/
def trust_envelopes : List UnverifiedEnvelope →
    Except UntrustedPayloadError (List Envelope × Nat)
  | [] => .ok ([], 0)
  | ue :: rest =>
    match PublicKey.new_from_b64 ue.certificate.key with
    | .error _ => .error .MalformedPublicKey
    | .ok key =>
      match check_signature ue.certificate.signature key ue.contents_raw_json with
      | .ok () =>
        match parse_contents ue.contents_raw_json with
        | none => .error .CannotParseJson
        | some contents =>
          match trust_envelopes rest with
          | .error e => .error e
          | .ok (envelopes, count) =>
              .ok (⟨ue.forwarded, ue.ttl, ⟨ue.certificate, contents⟩⟩ :: envelopes, count)
      | .error .CannotVerify =>
        match trust_envelopes rest with
        | .error e => .error e
        | .ok (envelopes, count) => .ok (envelopes, count + 1)
      | .error e => .error e

/-- `UntrustedPayload::try_trust`: decode the outer key, require it
trusted, verify the outer signature over the raw `envelopes` subtree,
parse that subtree, then run the per-envelope loop. -/
def UntrustedPayload.try_trust (p : UntrustedPayload)
    (trusted_public_keys : List PublicKey) :
    Except UntrustedPayloadError TrustedPayload :=
  match PublicKey.new_from_b64 p.certificate.key with
  | .error _ => .error .MalformedPublicKey
  | .ok claimed_public_key =>
    if ¬ trusted_public_keys.contains claimed_public_key then
      .error .PublicKeyNotTrusted
    else
      match check_signature p.certificate.signature claimed_public_key
          p.envelopes_raw_value with
      | .error e => .error e
      | .ok () =>
        match parse_unverified_envelopes p.envelopes_raw_value with
        | none => .error .CannotParseJson
        | some unverified_envelopes =>
          match trust_envelopes unverified_envelopes with
          | .error e => .error e
          | .ok (envelopes, unverified_messages_count) =>
              .ok ⟨claimed_public_key, p.certificate, envelopes,
                unverified_messages_count⟩

/-- `mailroom.rs` `OutgoingEnvelopes`: the envelope list to send plus the
secret key carried alongside for `create_payload`. -/
structure OutgoingEnvelopes where
  envelopes : List Envelope
  secret_key : SecretKey
deriving DecidableEq, Repr

/-- A request or response body, i.e. the JSON texts exchanged over HTTP:
either a payload document (modelled, as everywhere, by its parse) or
anything that does not parse as one. -/
inductive RequestBody where
  | payloadText (certificate : Certificate) (envelopes_raw : Raw)
  | junk (n : Nat)
deriving DecidableEq, Repr

/-- `OutgoingEnvelopes::create_payload`: serialize the envelopes, sign
their canonical bytes, and emit the payload JSON
`{certificate: {key, signature}, envelopes}`. -/
def OutgoingEnvelopes.create_payload (og : OutgoingEnvelopes) : RequestBody :=
  let envelopes_json := envelopes_to_raw og.envelopes
  let envelopes_bytes := get_canon_json_bytes envelopes_json
  let signature := og.secret_key.sign envelopes_bytes
  .payloadText ⟨og.secret_key.public_key.to_string, signature⟩ envelopes_json

/-- `UntrustedPayload::from_json`: parse a body as a payload document,
extracting the outer certificate and keeping the `envelopes` subtree
raw. -/
def UntrustedPayload.from_json : RequestBody →
    Except UntrustedPayloadError UntrustedPayload
  | .payloadText certificate envelopes_raw => .ok ⟨certificate, envelopes_raw⟩
  | .junk _ => .error .CannotParseJson

/-- `mailroom.rs` `DEFAULT_INITIAL_TTL`. -/
def DEFAULT_INITIAL_TTL : Nat := 8

/-- `mailroom.rs` `DEFAULT_MAX_FORWARDING_TTL`. -/
def DEFAULT_MAX_FORWARDING_TTL : Nat := 8

/-- `mailroom.rs` `MailroomError<E>`. -/
inductive MailroomError (E : Type) where
  | AlreadyReceivedFromKey
  | ArchiveFailure (e : E)
deriving DecidableEq, Repr

/-- `mailroom.rs` `OutgoingConfig` (`send_on_minute : Option<u32>`,
`initial_ttl : u8`, `max_forwarding_ttl : u8`). -/
structure OutgoingConfig where
  send_on_minute : Option Nat
  initial_ttl : Nat
  max_forwarding_ttl : Nat
deriving DecidableEq, Repr

/-- `OutgoingConfig::new`. -/
def OutgoingConfig.new (send_on_minute : Option Nat) (custom_inital_ttl : Option Nat)
    (custom_max_forwarding_ttl : Option Nat) : OutgoingConfig :=
  ⟨send_on_minute, custom_inital_ttl.getD DEFAULT_INITIAL_TTL,
    custom_max_forwarding_ttl.getD DEFAULT_MAX_FORWARDING_TTL⟩

/-- `impl Default for OutgoingConfig`. -/
def OutgoingConfig.default : OutgoingConfig :=
  ⟨some 0, DEFAULT_INITIAL_TTL, DEFAULT_MAX_FORWARDING_TTL⟩

/-- The state of `Mailroom<L, A, E>` from `mailroom.rs`.  The line
generator (`L: GetNextLine`, `&mut self`) is modelled as the queue of lines
it will hand out; `uuid_source` models the stream of fresh v4 uuids
`set_new_message` draws; the archive `A` is not stored here but passed to
each operation explicitly (see `ArchiveOps`), so that its fallibility stays
visible. -/
structure Mailroom where
  line_generator : List NextLine
  secret_key : SecretKey
  flatten_time : Nat → Nat
  interval : Nat
  new_messages : List Message
  forwarding_received_this_hour : List (PublicKey × List Envelope)
  forwarding_received_last_hour : List (PublicKey × List Envelope)
  current_message : Option Message
  last_seen_time : Option Nat
  last_updated_message_time : Option Nat
  uuid_source : Nat

/-- `HashMap::contains_key` on the association-list model. -/
def map_contains_key (m : List (PublicKey × List Envelope)) (k : PublicKey) : Bool :=
  m.any (fun kv => kv.1 = k)

/-- `HashMap::get` on the association-list model. -/
def map_get (m : List (PublicKey × List Envelope)) (k : PublicKey) :
    Option (List Envelope) :=
  match m.find? (fun kv => kv.1 = k) with
  | some kv => some kv.2
  | none => none

/-- `Mailroom::new`: the default constructor; its `flatten_time` zeroes the
seconds and nanoseconds of the instant (minute truncation — on `Nat`
seconds, rounding down to a multiple of 60) and its `interval` is
`Duration::from_secs(60)`.  The Rust constructor wraps the mailroom in
`Ok` unconditionally. -/
def Mailroom.new (line_generator : List NextLine) (secret_key : SecretKey) : Mailroom where
  line_generator := line_generator
  secret_key := secret_key
  flatten_time := fun t => t / 60 * 60
  interval := 60
  new_messages := []
  forwarding_received_this_hour := []
  forwarding_received_last_hour := []
  current_message := none
  last_seen_time := none
  last_updated_message_time := none
  uuid_source := 0

/-- `Mailroom::set_new_message`: draw the next line; if there is one, build
fresh contents (new v4 uuid), serialize and canonicalize them, sign with
the relay's own secret key, and install the message; otherwise clear
`current_message`. -/
def Mailroom.set_new_message (m : Mailroom) : Mailroom :=
  match m.line_generator with
  | [] => { m with current_message := none }
  | next_line :: rest =>
    let contents : MessageContents :=
      ⟨toString m.uuid_source, next_line.author, next_line.line⟩
    let contents_bytes := get_canon_json_bytes (.contentsObj contents)
    let signature := m.secret_key.sign contents_bytes
    { m with
      line_generator := rest
      uuid_source := m.uuid_source + 1
      current_message := some ⟨⟨m.secret_key.public_key.to_string, signature⟩, contents⟩ }

/-- `Mailroom::handle_time`: on a flattened-time change rotate the
forwarding buffers (carry `this_hour` into `last_hour` only when the new
period is exactly one interval later, else drop it) and clear the
period-scoped state; then, when sending and not yet done this period,
regenerate `current_message`. -/
def Mailroom.handle_time (m : Mailroom) (now : Nat) (is_sending_message : Bool) :
    Mailroom :=
  let now_flattened := m.flatten_time now
  let m :=
    match m.last_seen_time with
    | some last_seen_time =>
      if now_flattened ≠ last_seen_time then
        { m with
          forwarding_received_last_hour :=
            if now_flattened = last_seen_time + m.interval then
              m.forwarding_received_this_hour
            else []
          forwarding_received_this_hour := []
          new_messages := [] }
      else m
    | none => m
  let m := { m with last_seen_time := some now_flattened }
  if (m.last_updated_message_time.all (fun time => time ≠ now_flattened))
      && is_sending_message then
    let m := m.set_new_message
    { m with last_updated_message_time := some now_flattened }
  else m

/-- `Mailroom::message_this_minute`: contribute a line this tick iff
`send_on_minute` is unset or equals the instant's minute-of-hour. -/
def Mailroom.message_this_minute (now : Nat) (outgoing_config : OutgoingConfig) : Bool :=
  match outgoing_config.send_on_minute with
  | none => true
  | some send_on_minute => now / 60 % 60 = send_on_minute

/-- The `trait Archive` interface of `mailroom.rs`, as explicit
state-passing functions over an archive state `A` with error type `E`.
`is_message_in_archive` takes `&self` (no state change);
`add_envelope_to_archive` takes `&mut self` (returns the new state).  On an
error result the archive's own state is not observable; operations below
keep the last known state in that case. -/
structure ArchiveOps (A E : Type) where
  is_message_in_archive : A → Message → Except E Bool
  add_envelope_to_archive : A → KeyStr → Envelope → Except E A

/-- The in-memory archive of the integration tests (`tests/mock/mod.rs`
`MockArchive`): a list of archived envelopes and the set of their
messages. -/
structure MemArchive where
  envelopes : List Envelope
  messages : List Message
deriving DecidableEq, Repr

/-- `MockArchive`'s `Archive` implementation: adding pushes the envelope
and inserts its message; the membership query consults the message set;
neither ever fails. -/
def memArchiveOps : ArchiveOps MemArchive Empty where
  is_message_in_archive := fun a message => .ok (a.messages.contains message)
  add_envelope_to_archive := fun a _ envelope =>
    .ok ⟨a.envelopes ++ [envelope],
      if a.messages.contains envelope.message then a.messages
      else a.messages ++ [envelope.message]⟩

/-- The `for envelope in &payload.envelopes` loop of
`Mailroom::receive_payload_internal`.  Returns the final `new_messages`,
the accumulated `forwarding_from_this_key` list, the final archive state
and the error, if any.  Mutations of `new_messages` made before a failing
archive call persist (Rust mutates `self` in place); the local forwarding
list is discarded by the caller on error, because the insertion into
`forwarding_received_this_hour` only happens after the loop. -/
def receive_loop {A E : Type} (ops : ArchiveOps A E) (sender_key : KeyStr) :
    List Envelope → A → List Message → List Envelope →
    List Message × List Envelope × A × Option (MailroomError E)
  | [], a, new_messages, acc => (new_messages, acc, a, none)
  | envelope :: rest, a, new_messages, acc =>
    if envelope.message ∈ new_messages then
      match ops.add_envelope_to_archive a sender_key envelope with
      | .error e => (new_messages, acc ++ [envelope], a, some (.ArchiveFailure e))
      | .ok a' => receive_loop ops sender_key rest a' new_messages (acc ++ [envelope])
    else
      match ops.is_message_in_archive a envelope.message with
      | .error e => (new_messages, acc, a, some (.ArchiveFailure e))
      | .ok true =>
        match ops.add_envelope_to_archive a sender_key envelope with
        | .error e => (new_messages, acc, a, some (.ArchiveFailure e))
        | .ok a' => receive_loop ops sender_key rest a' new_messages acc
      | .ok false =>
        match ops.add_envelope_to_archive a sender_key envelope with
        | .error e =>
            (new_messages ++ [envelope.message], acc ++ [envelope], a,
              some (.ArchiveFailure e))
        | .ok a' =>
            receive_loop ops sender_key rest a' (new_messages ++ [envelope.message])
              (acc ++ [envelope])

/-- `Mailroom::receive_payload_internal` (the body shared by
`receive_payload` and `receive_payload_at_time`): handle the period
boundary, reject a second payload from the same key this period, admit the
envelopes, and finally record the per-sender forwarding list.  Returns the
mailroom and archive as left by the operation together with the error, if
any (the Rust method mutates `&mut self` even on the error paths). -/
def Mailroom.receive_payload_internal {A E : Type} (ops : ArchiveOps A E)
    (m : Mailroom) (a : A) (payload : TrustedPayload) (now : Nat) :
    Mailroom × A × Option (MailroomError E) :=
  let m := m.handle_time now false
  if map_contains_key m.forwarding_received_this_hour payload.public_key then
    (m, a, some .AlreadyReceivedFromKey)
  else
    match receive_loop ops payload.certificate.key payload.envelopes a
        m.new_messages [] with
    | (new_messages, _, a', some e) =>
        ({ m with new_messages := new_messages }, a', some e)
    | (new_messages, forwarding_from_this_key, a', none) =>
        ({ m with
            new_messages := new_messages
            forwarding_received_this_hour :=
              m.forwarding_received_this_hour ++
                [(payload.public_key, forwarding_from_this_key)] },
          a', none)

/-- The wrapping `u8` decrement `envelope.ttl - 1` in
`get_outgoing_internal`.  In Rust this panics on 0 in debug builds and
wraps modulo 256 in release builds; the model uses the release (wrapping)
semantics. -/
def u8_wrapping_sub_one (t : Nat) : Nat :=
  (t + 255) % 256

/-- The per-envelope transformation of `Mailroom::get_outgoing_internal`:
cap the decremented ttl at `max_forwarding_ttl`, append our own key to the
forwarding log, and keep the envelope only if the new ttl is positive. -/
def forward_envelope (outgoing_config : OutgoingConfig) (own_key : PublicKey)
    (envelope : Envelope) : Option Envelope :=
  let new_ttl := min outgoing_config.max_forwarding_ttl (u8_wrapping_sub_one envelope.ttl)
  let envelope := { envelope with
    ttl := new_ttl
    forwarded := envelope.forwarded ++ [own_key.to_string] }
  if envelope.ttl > 0 then some envelope else none

/-- `Mailroom::get_outgoing_internal` (the body shared by `get_outgoing`
and `get_outgoing_at_time`): handle the period boundary, build the
forwarding list from every last-period sender other than the destination,
and, on a sending tick with a current message, archive and append a fresh
envelope carrying it. -/
def Mailroom.get_outgoing_internal {A E : Type} (ops : ArchiveOps A E)
    (m : Mailroom) (a : A) (sending_to : PublicKey)
    (outgoing_config : OutgoingConfig) (now : Nat) :
    Mailroom × A × Except (MailroomError E) OutgoingEnvelopes :=
  let m := m.handle_time now (Mailroom.message_this_minute now outgoing_config)
  let sending_envelopes :=
    ((m.forwarding_received_last_hour.filter (fun kv => kv.1 ≠ sending_to)).flatMap
        (fun kv => kv.2)).filterMap
      (forward_envelope outgoing_config m.secret_key.public_key)
  if Mailroom.message_this_minute now outgoing_config then
    match m.current_message with
    | some current_message =>
      let envelope : Envelope := ⟨[], outgoing_config.initial_ttl, current_message⟩
      match ops.add_envelope_to_archive a envelope.message.certificate.key envelope with
      | .error e => (m, a, .error (.ArchiveFailure e))
      | .ok a' =>
          (m, a', .ok ⟨sending_envelopes ++ [envelope], m.secret_key⟩)
    | none => (m, a, .ok ⟨sending_envelopes, m.secret_key⟩)
  else (m, a, .ok ⟨sending_envelopes, m.secret_key⟩)

/-- `relay_daemon/src/daemon/exchange.rs` `respond_to_sender`, the listener
handler: parse the body (`400` on failure), `try_trust` it (`403` on any
trust failure), receive it in the mailroom (`403` on
`AlreadyReceivedFromKey`, `500` on `ArchiveFailure`), then build, sign and
return the reply payload (`500` on `ArchiveFailure`), which axum serves
with status `200`.  The configuration is taken as the trusted key list and
ttl configuration it supplies (its absent-config `500` branch and the
event emissions are not modelled). -/
def respond_to_sender {A E : Type} (ops : ArchiveOps A E)
    (trusted_public_keys : List PublicKey) (outgoing_config : OutgoingConfig)
    (m : Mailroom) (a : A) (body : RequestBody) (now : Nat) :
    Mailroom × A × Except (Nat × String) RequestBody :=
  match UntrustedPayload.from_json body with
  | .error _ => (m, a, .error (400, "payload malformed"))
  | .ok untrusted_payload =>
    match untrusted_payload.try_trust trusted_public_keys with
    | .error _ => (m, a, .error (403, "payload certificate key not trusted"))
    | .ok trusted_payload =>
      match m.receive_payload_internal ops a trusted_payload now with
      | (m, a, some .AlreadyReceivedFromKey) =>
          (m, a, .error
            (403, "already received payload with this certificate key this period"))
      | (m, a, some (.ArchiveFailure _)) =>
          (m, a, .error (500, "db error sorry"))
      | (m, a, none) =>
        match m.get_outgoing_internal ops a trusted_payload.public_key
            outgoing_config now with
        | (m, a, .ok outgoing_envelopes) =>
            (m, a, .ok outgoing_envelopes.create_payload)
        | (m, a, .error _) => (m, a, .error (500, "db error sorry"))

/-- A message whose certificate is internally valid: its key string is the
encoding of a public key and its signature string is that key's signature
over the canonical bytes of its own contents.  Exactly the messages whose
inner check in `try_trust` succeeds. -/
def Message.well_signed (msg : Message) : Bool :=
  match msg.certificate.key with
  | .good k => msg.certificate.signature = Raw.sigOf k (.contentsObj msg.contents)
  | .bad _ => false

/-- The invariant that every message a mailroom may emit — the forwarding
buffers of both periods and the current contribution — is well signed.
Every state the program reaches satisfies it: admitted envelopes passed the
inner check of `try_trust` and own contributions are signed by
`set_new_message`. -/
def Mailroom.well_signed_state (m : Mailroom) : Bool :=
  m.forwarding_received_this_hour.all (fun kv => kv.2.all (fun e => e.message.well_signed))
    && m.forwarding_received_last_hour.all (fun kv => kv.2.all (fun e => e.message.well_signed))
    && m.current_message.all Message.well_signed

/-- Whether the inner certificate of a parsed envelope decodes and its
signature verifies over the raw contents — the test the `try_trust` loop
applies. -/
def UnverifiedEnvelope.inner_verifies (ue : UnverifiedEnvelope) : Bool :=
  match PublicKey.new_from_b64 ue.certificate.key with
  | .error _ => false
  | .ok key =>
    match check_signature ue.certificate.signature key ue.contents_raw_json with
    | .ok () => true
    | .error _ => false

/-- Whether the inner certificate key of a parsed envelope decodes at
all. -/
def UnverifiedEnvelope.key_decodes (ue : UnverifiedEnvelope) : Bool :=
  match PublicKey.new_from_b64 ue.certificate.key with
  | .ok _ => true
  | .error _ => false

/-- The trusted envelope the `try_trust` loop builds from a parsed one
(`none` when the raw contents do not parse as `MessageContents`). -/
def UnverifiedEnvelope.to_envelope (ue : UnverifiedEnvelope) : Option Envelope :=
  (parse_contents ue.contents_raw_json).map
    (fun contents => ⟨ue.forwarded, ue.ttl, ⟨ue.certificate, contents⟩⟩)

/-- The parsed form of a serialized envelope (what deserializing
`Envelope.to_raw` yields). -/
def Envelope.to_unverified (e : Envelope) : UnverifiedEnvelope :=
  ⟨e.forwarded, e.ttl, e.message.certificate, .contentsObj e.message.contents⟩

/-- A fault-injecting archive: the membership query always answers `false`
and succeeds; adding succeeds while the countdown state is positive
(decrementing it) and fails with the unit error once it reaches zero. -/
def countdownArchiveOps : ArchiveOps Nat Unit where
  is_message_in_archive := fun _ _ => .ok false
  add_envelope_to_archive := fun n _ _ =>
    if n = 0 then .error () else .ok (n - 1)

/-- Fixture: this relay's secret key. -/
def exSecretKey : SecretKey := ⟨1⟩

/-- Fixture: peer B's secret key. -/
def exSecretKeyB : SecretKey := ⟨2⟩

/-- Fixture: message contents authored by peer B. -/
def exContentsB : MessageContents := ⟨"u1", "b", "line of b"⟩

/-- Fixture: a well-signed message by peer B. -/
def exMessageB : Message :=
  ⟨⟨exSecretKeyB.public_key.to_string,
    exSecretKeyB.sign (get_canon_json_bytes (.contentsObj exContentsB))⟩, exContentsB⟩

/-- Fixture: an envelope carrying `exMessageB` with five hops left. -/
def exEnvelopeB : Envelope := ⟨[], 5, exMessageB⟩

/-- Fixture: an envelope carrying `exMessageB` with ttl `0`. -/
def exEnvelopeT0 : Envelope := ⟨[], 0, exMessageB⟩

/-- Fixture: an already-trusted payload from peer B carrying
`exEnvelopeB`.  (Its certificate fields are those `try_trust` would have
checked; only `public_key` and `envelopes` matter to the mailroom.) -/
def exPayloadB : TrustedPayload :=
  ⟨exSecretKeyB.public_key,
    ⟨exSecretKeyB.public_key.to_string,
      exSecretKeyB.sign (get_canon_json_bytes (envelopes_to_raw [exEnvelopeB]))⟩,
    [exEnvelopeB], 0⟩

/-- Fixture: an already-trusted payload from peer B whose single envelope
has ttl `0`. -/
def exPayloadT0 : TrustedPayload :=
  ⟨exSecretKeyB.public_key,
    ⟨exSecretKeyB.public_key.to_string,
      exSecretKeyB.sign (get_canon_json_bytes (envelopes_to_raw [exEnvelopeT0]))⟩,
    [exEnvelopeT0], 0⟩

/-- Fixture: a mailroom for `exSecretKey` that has already seen time `0`. -/
def exMailroom : Mailroom :=
  { Mailroom.new [] exSecretKey with last_seen_time := some 0 }

/-- Fixture: the empty in-memory archive. -/
def exEmptyArchive : MemArchive := ⟨[], []⟩

/-- Fixture: the wire form of a payload from peer B carrying
`exEnvelopeB`, as a request body. -/
def exBodyB : RequestBody :=
  (OutgoingEnvelopes.mk [exEnvelopeB] exSecretKeyB).create_payload

instance instDecidableEqExcept {ε α : Type} [DecidableEq ε] [DecidableEq α] :
    DecidableEq (Except ε α) := fun a b =>
  match a, b with
  | .error e, .error f =>
    if h : e = f then .isTrue (congrArg Except.error h)
    else .isFalse (fun hh => h (Except.error.inj hh))
  | .ok x, .ok y =>
    if h : x = y then .isTrue (congrArg Except.ok h)
    else .isFalse (fun hh => h (Except.ok.inj hh))
  | .error _, .ok _ => .isFalse (fun hh => Except.noConfusion hh)
  | .ok _, .error _ => .isFalse (fun hh => Except.noConfusion hh)

theorem set_new_message_fields (m : Mailroom) :
    (m.set_new_message.flatten_time = m.flatten_time ∧
      m.set_new_message.interval = m.interval ∧
      m.set_new_message.secret_key = m.secret_key) ∧
    m.set_new_message.new_messages = m.new_messages ∧
    m.set_new_message.forwarding_received_this_hour = m.forwarding_received_this_hour ∧
    m.set_new_message.forwarding_received_last_hour = m.forwarding_received_last_hour ∧
    m.set_new_message.last_seen_time = m.last_seen_time := by
  unfold Mailroom.set_new_message
  cases m.line_generator <;> simp

theorem handle_time_fields (m : Mailroom) (now : Nat) (b : Bool) :
    (m.handle_time now b).flatten_time = m.flatten_time ∧
      (m.handle_time now b).interval = m.interval ∧
      (m.handle_time now b).secret_key = m.secret_key ∧
      (m.handle_time now b).last_seen_time = some (m.flatten_time now) := by
  unfold Mailroom.handle_time
  cases h : m.last_seen_time <;>
    simp only [] <;>
    split_ifs <;>
    simp_all [set_new_message_fields]

theorem handle_time_same_period (m : Mailroom) (now f : Nat)
    (hseen : m.last_seen_time = some f) (hflat : m.flatten_time now = f) :
    m.handle_time now false = m := by
  unfold Mailroom.handle_time
  simp only [hseen, hflat, ne_eq, not_true_eq_false, if_false, Bool.and_false,
    ite_eq_right_iff, Bool.false_eq_true, false_implies, if_neg]
  rw [← hseen]

theorem handle_time_diff_period (m : Mailroom) (now f : Nat)
    (hseen : m.last_seen_time = some f) (hflat : m.flatten_time now ≠ f) :
    (m.handle_time now false).forwarding_received_this_hour = [] ∧
      (m.handle_time now false).new_messages = [] ∧
      (m.handle_time now false).forwarding_received_last_hour =
        (if m.flatten_time now = f + m.interval
          then m.forwarding_received_this_hour else []) := by
  unfold Mailroom.handle_time
  simp [hseen, hflat]

theorem map_contains_key_append_self (l : List (PublicKey × List Envelope))
    (k : PublicKey) (v : List Envelope) :
    map_contains_key (l ++ [(k, v)]) k = true := by
  simp [map_contains_key]

theorem receive_loop_total_ok {A E : Type} (ops : ArchiveOps A E)
    (hin : ∀ a msg, ∃ b, ops.is_message_in_archive a msg = Except.ok b)
    (hadd : ∀ a k e, ∃ a', ops.add_envelope_to_archive a k e = Except.ok a')
    (key : KeyStr) (envs : List Envelope) :
    ∀ (a : A) (nm : List Message) (acc : List Envelope),
      (receive_loop ops key envs a nm acc).2.2.2 = none := by
  induction envs with
  | nil => intro a nm acc; simp [receive_loop]
  | cons e rest ih =>
    intro a nm acc
    unfold receive_loop
    by_cases hmem : e.message ∈ nm
    · simp only [if_pos hmem]
      obtain ⟨a', ha⟩ := hadd a key e
      simp only [ha]
      exact ih a' nm (acc ++ [e])
    · simp only [if_neg hmem]
      obtain ⟨b, hb⟩ := hin a e.message
      simp only [hb]
      cases b
      · obtain ⟨a', ha⟩ := hadd a key e
        simp only [ha]
        exact ih a' (nm ++ [e.message]) (acc ++ [e])
      · obtain ⟨a', ha⟩ := hadd a key e
        simp only [ha]
        exact ih a' nm acc

theorem mem_archive_total_in (a : MemArchive) (msg : Message) :
    ∃ b, memArchiveOps.is_message_in_archive a msg = Except.ok b :=
  ⟨_, rfl⟩

theorem mem_archive_total_add (a : MemArchive) (k : KeyStr) (e : Envelope) :
    ∃ a', memArchiveOps.add_envelope_to_archive a k e = Except.ok a' :=
  ⟨_, rfl⟩

theorem receive_payload_ok_shape {A E : Type} (ops : ArchiveOps A E)
    (m : Mailroom) (a : A) (p : TrustedPayload) (t : Nat)
    (h : (m.receive_payload_internal ops a p t).2.2 = none) :
    ∃ fwd, (m.receive_payload_internal ops a p t).1.forwarding_received_this_hour =
        (m.handle_time t false).forwarding_received_this_hour ++ [(p.public_key, fwd)] ∧
      (m.receive_payload_internal ops a p t).1.flatten_time = m.flatten_time ∧
      (m.receive_payload_internal ops a p t).1.last_seen_time =
        some (m.flatten_time t) ∧
      (m.receive_payload_internal ops a p t).1.interval = m.interval := by
  simp only [Mailroom.receive_payload_internal] at h ⊢
  split_ifs at h ⊢ with hc
  rcases hloop : receive_loop ops p.certificate.key p.envelopes a
      (m.handle_time t false).new_messages [] with ⟨nm, fwd, a', err⟩
  simp only [hloop] at h ⊢
  cases err with
  | some e => simp at h
  | none =>
    refine ⟨fwd, by simp, ?_, ?_, ?_⟩ <;>
      simp [(handle_time_fields m t false).1, (handle_time_fields m t false).2.1,
        (handle_time_fields m t false).2.2.2]

/-- C2.  At-most-once-per-period admission: after a successful
`receive_payload` from key `K` at time `t`, a second `receive_payload`
from `K` at any `t'` in the same period (equal flattened time) fails with
`AlreadyReceivedFromKey`, while a `receive_payload` from `K` at a `t''` in
a different period is accepted again (the in-memory archive never
fails). -/
theorem receive_payload_at_most_once_per_period (m : Mailroom) (a : MemArchive)
    (p p' p'' : TrustedPayload) (t t' t'' : Nat)
    (hk' : p'.public_key = p.public_key) (hk'' : p''.public_key = p.public_key)
    (hok : (m.receive_payload_internal memArchiveOps a p t).2.2 = none)
    (hsame : m.flatten_time t' = m.flatten_time t)
    (hdiff : m.flatten_time t'' ≠ m.flatten_time t) :
    (((m.receive_payload_internal memArchiveOps a p t).1).receive_payload_internal
        memArchiveOps (m.receive_payload_internal memArchiveOps a p t).2.1 p' t').2.2
      = some .AlreadyReceivedFromKey ∧
    (((m.receive_payload_internal memArchiveOps a p t).1).receive_payload_internal
        memArchiveOps (m.receive_payload_internal memArchiveOps a p t).2.1 p'' t'').2.2
      = none := by
  obtain ⟨fwd, hthis, hflat, hseen, _⟩ :=
    receive_payload_ok_shape memArchiveOps m a p t hok
  set m₁ := (m.receive_payload_internal memArchiveOps a p t).1 with hm₁
  set a₁ := (m.receive_payload_internal memArchiveOps a p t).2.1 with ha₁
  constructor
  · have hstep : m₁.handle_time t' false = m₁ :=
      handle_time_same_period m₁ t' (m.flatten_time t) hseen (by rw [hflat, hsame])
    simp only [Mailroom.receive_payload_internal]
    rw [hstep, hthis, hk']
    simp [map_contains_key_append_self]
  · have hstep := handle_time_diff_period m₁ t'' (m.flatten_time t) hseen
      (by rw [hflat]; exact hdiff)
    simp only [Mailroom.receive_payload_internal]
    rw [hstep.1]
    have hcontains : map_contains_key [] p''.public_key = false := by
      simp [map_contains_key]
    rw [hcontains]
    rcases hloop : receive_loop memArchiveOps p''.certificate.key p''.envelopes a₁
        (m₁.handle_time t'' false).new_messages [] with ⟨nm, fwd', a', err⟩
    have h0 := receive_loop_total_ok memArchiveOps mem_archive_total_in
      mem_archive_total_add p''.certificate.key p''.envelopes a₁
      (m₁.handle_time t'' false).new_messages []
    rw [hloop] at h0
    simp only [] at h0
    subst h0
    simp only [hloop, Bool.false_eq_true, if_false]

/-- C2 witness: a concrete run — a payload from peer B is received at
`t = 30`; a second payload from B at `t = 59` (same minute period) is
rejected with `AlreadyReceivedFromKey`, and one at `t = 65` (next period)
is accepted. -/
theorem receive_payload_at_most_once_per_period_witness :
    ((((Mailroom.new [] exSecretKey).receive_payload_internal memArchiveOps
          exEmptyArchive exPayloadB 30).1).receive_payload_internal
        memArchiveOps
        ((Mailroom.new [] exSecretKey).receive_payload_internal memArchiveOps
          exEmptyArchive exPayloadB 30).2.1 exPayloadB 59).2.2
      = some .AlreadyReceivedFromKey ∧
    ((((Mailroom.new [] exSecretKey).receive_payload_internal memArchiveOps
          exEmptyArchive exPayloadB 30).1).receive_payload_internal
        memArchiveOps
        ((Mailroom.new [] exSecretKey).receive_payload_internal memArchiveOps
          exEmptyArchive exPayloadB 30).2.1 exPayloadB 65).2.2
      = none :=
  receive_payload_at_most_once_per_period (Mailroom.new [] exSecretKey)
    exEmptyArchive exPayloadB exPayloadB exPayloadB 30 59 65 rfl rfl
    (by decide) (by decide) (by decide)

/-- C9 counterexample: the claim says the default constructor uses
hour-truncation and a one-hour interval.  At the instant `3690` (one hour,
one minute and thirty seconds in), `Mailroom::new`'s `flatten_time` gives
`3660` (the minute), not `3600` (the hour), and its interval is `60`
seconds, not `3600`. -/
theorem mailroom_new_defaults_not_hourly :
    (Mailroom.new [] exSecretKey).flatten_time 3690 = 3660 ∧
      (3660 : Nat) ≠ 3600 ∧
      (Mailroom.new [] exSecretKey).interval = 60 ∧
      (60 : Nat) ≠ 3600 := by
  refine ⟨rfl, by decide, rfl, by decide⟩

/-- C9 (amended).  The default `Mailroom::new` uses minute-truncation as
`flatten_time` (the projection zeroes seconds and nanoseconds: it is the
largest multiple of 60 not exceeding the instant) with a 60-second
interval, and the default `OutgoingConfig` uses `initial_ttl = 8`,
`max_forwarding_ttl = 8` and `send_on_minute = Some(0)`. -/
theorem mailroom_new_default_period_parameters (lg : List NextLine)
    (sk : SecretKey) (t : Nat) :
    (Mailroom.new lg sk).flatten_time t % 60 = 0 ∧
      (Mailroom.new lg sk).flatten_time t ≤ t ∧
      t < (Mailroom.new lg sk).flatten_time t + 60 ∧
      (Mailroom.new lg sk).interval = 60 ∧
      OutgoingConfig.default = ⟨some 0, 8, 8⟩ := by
  refine ⟨?_, ?_, ?_, rfl, rfl⟩ <;> simp only [Mailroom.new] <;> omega

/-- C3 (code bug): a trusted payload whose envelope has `ttl = 0` is
accepted and stored in `forwarding_received_this_hour` unchanged (no ttl
check on receive), and in the next period `get_outgoing` applies the `u8`
decrement to `0` — which underflows: the envelope is emitted with
`ttl = min(8, 255) = 8` instead of having been dropped. -/
theorem ttl_zero_envelope_stored_and_forwarded :
    ((exMailroom.receive_payload_internal memArchiveOps exEmptyArchive
        exPayloadT0 0).2.2 = none ∧
      map_get (exMailroom.receive_payload_internal memArchiveOps exEmptyArchive
          exPayloadT0 0).1.forwarding_received_this_hour
        exSecretKeyB.public_key = some [exEnvelopeT0]) ∧
    ((exMailroom.receive_payload_internal memArchiveOps exEmptyArchive
          exPayloadT0 0).1.get_outgoing_internal memArchiveOps
        (exMailroom.receive_payload_internal memArchiveOps exEmptyArchive
          exPayloadT0 0).2.1 ⟨3⟩ OutgoingConfig.default 60).2.2 =
      .ok ⟨[{ exEnvelopeT0 with
                ttl := 8, forwarded := [exSecretKey.public_key.to_string] }],
            exSecretKey⟩ := by
  decide

/-- C10.  Whole-payload rejection on a malformed inner key: a payload
whose outer certificate decodes, is trusted and verifies, and whose first
envelope's inner signature would verify, is still rejected outright with
`MalformedPublicKey` because its second envelope's message certificate key
is not a valid base64 public key — even the verifiable envelope is
discarded. -/
theorem try_trust_rejects_whole_payload_on_malformed_inner_key :
    (PublicKey.new_from_b64
        (UntrustedPayload.mk
          ⟨KeyStr.good 1,
            Raw.sigOf 1 (.envCons exEnvelopeB.to_raw
              (.envCons (.envObj [] 5 (.bad 0) (.bogus 0)
                (.contentsObj ⟨"u3", "x", "junk"⟩)) .envNil))⟩
          (.envCons exEnvelopeB.to_raw
            (.envCons (.envObj [] 5 (.bad 0) (.bogus 0)
              (.contentsObj ⟨"u3", "x", "junk"⟩)) .envNil))).certificate.key
        = .ok ⟨1⟩ ∧
      check_signature
        (Raw.sigOf 1 (.envCons exEnvelopeB.to_raw
          (.envCons (.envObj [] 5 (.bad 0) (.bogus 0)
            (.contentsObj ⟨"u3", "x", "junk"⟩)) .envNil)))
        ⟨1⟩
        (.envCons exEnvelopeB.to_raw
          (.envCons (.envObj [] 5 (.bad 0) (.bogus 0)
            (.contentsObj ⟨"u3", "x", "junk"⟩)) .envNil)) = .ok () ∧
      (Envelope.to_unverified exEnvelopeB).inner_verifies = true) ∧
    (UntrustedPayload.mk
        ⟨KeyStr.good 1,
          Raw.sigOf 1 (.envCons exEnvelopeB.to_raw
            (.envCons (.envObj [] 5 (.bad 0) (.bogus 0)
              (.contentsObj ⟨"u3", "x", "junk"⟩)) .envNil))⟩
        (.envCons exEnvelopeB.to_raw
          (.envCons (.envObj [] 5 (.bad 0) (.bogus 0)
            (.contentsObj ⟨"u3", "x", "junk"⟩)) .envNil))).try_trust [⟨1⟩]
      = .error .MalformedPublicKey := by
  decide

/-- C7 counterexample: a payload whose outer certificate key is trusted
and whose outer signature verifies for which `try_trust` does *not*
return `Ok`: its only envelope's inner certificate key is malformed, so
the whole payload is rejected with `MalformedPublicKey`. -/
theorem try_trust_not_ok_despite_trusted_outer :
    (PublicKey.new_from_b64
        (UntrustedPayload.mk
          ⟨KeyStr.good 1, Raw.sigOf 1 (.envCons (.envObj [] 5 (.bad 7) (.bogus 1)
            (.contentsObj ⟨"u4", "y", "text"⟩)) .envNil)⟩
          (.envCons (.envObj [] 5 (.bad 7) (.bogus 1)
            (.contentsObj ⟨"u4", "y", "text"⟩)) .envNil)).certificate.key = .ok ⟨1⟩ ∧
      check_signature
        (Raw.sigOf 1 (.envCons (.envObj [] 5 (.bad 7) (.bogus 1)
          (.contentsObj ⟨"u4", "y", "text"⟩)) .envNil))
        ⟨1⟩
        (.envCons (.envObj [] 5 (.bad 7) (.bogus 1)
          (.contentsObj ⟨"u4", "y", "text"⟩)) .envNil) = .ok ()) ∧
    (UntrustedPayload.mk
        ⟨KeyStr.good 1, Raw.sigOf 1 (.envCons (.envObj [] 5 (.bad 7) (.bogus 1)
          (.contentsObj ⟨"u4", "y", "text"⟩)) .envNil)⟩
        (.envCons (.envObj [] 5 (.bad 7) (.bogus 1)
          (.contentsObj ⟨"u4", "y", "text"⟩)) .envNil)).try_trust [⟨1⟩]
      = .error .MalformedPublicKey := by
  decide

/-- C4 counterexample: loopback suppression does not hold by originator.
A mailroom holds, recorded under peer B, an envelope whose message was
originated by key `3`; `get_outgoing` towards destination `3` still emits
that envelope (only envelopes *received from* the destination are
suppressed), so a peer does receive its own origination back. -/
theorem get_outgoing_emits_destinations_own_origination :
    (Mailroom.get_outgoing_internal memArchiveOps
        { Mailroom.new [] exSecretKey with
          last_seen_time := some 0
          forwarding_received_last_hour :=
            [(exSecretKeyB.public_key,
              [⟨[], 5, ⟨⟨KeyStr.good 3, Raw.sigOf 3 (.contentsObj ⟨"u2", "d", "line d"⟩)⟩,
                ⟨"u2", "d", "line d"⟩⟩⟩])] }
        exEmptyArchive ⟨3⟩ OutgoingConfig.default 0).2.2 =
      .ok ⟨[⟨[exSecretKey.public_key.to_string], 4,
            ⟨⟨KeyStr.good 3, Raw.sigOf 3 (.contentsObj ⟨"u2", "d", "line d"⟩)⟩,
              ⟨"u2", "d", "line d"⟩⟩⟩], exSecretKey⟩ ∧
    (KeyStr.good 3 = (PublicKey.mk 3).to_string) := by
  decide

/-- C5 counterexample: a message first seen from peer A this period (it
is in `new_messages` and recorded under A) arrives again from peer B in
the same period; the receive succeeds and the envelope *is* recorded under
B in `forwarding_received_this_hour` (it will be forwarded from both A and
B), while `new_messages` is unchanged. -/
theorem second_sender_of_known_message_is_recorded :
    ((Mailroom.receive_payload_internal memArchiveOps
        { Mailroom.new [] exSecretKey with
          last_seen_time := some 0
          new_messages := [exMessageB]
          forwarding_received_this_hour := [(⟨4⟩, [exEnvelopeB])] }
        ⟨[exEnvelopeB], [exMessageB]⟩ exPayloadB 0).2.2 = none) ∧
    map_get (Mailroom.receive_payload_internal memArchiveOps
        { Mailroom.new [] exSecretKey with
          last_seen_time := some 0
          new_messages := [exMessageB]
          forwarding_received_this_hour := [(⟨4⟩, [exEnvelopeB])] }
        ⟨[exEnvelopeB], [exMessageB]⟩ exPayloadB 0).1.forwarding_received_this_hour
      exSecretKeyB.public_key = some [exEnvelopeB] ∧
    (Mailroom.receive_payload_internal memArchiveOps
        { Mailroom.new [] exSecretKey with
          last_seen_time := some 0
          new_messages := [exMessageB]
          forwarding_received_this_hour := [(⟨4⟩, [exEnvelopeB])] }
        ⟨[exEnvelopeB], [exMessageB]⟩ exPayloadB 0).1.new_messages = [exMessageB] := by
  decide

/-- C6 counterexample: `receive_payload` is not atomic on archive failure.
With an archive whose add fails immediately, receiving a payload carrying
one new message returns `ArchiveFailure`, yet `new_messages` has grown
from `[]` to the admitted message — the period state is *not* unchanged. -/
theorem receive_payload_archive_failure_mutates_new_messages :
    ((exMailroom.receive_payload_internal countdownArchiveOps 0 exPayloadB 0).2.2 =
        some (.ArchiveFailure ())) ∧
      (exMailroom.receive_payload_internal countdownArchiveOps 0
          exPayloadB 0).1.new_messages = [exMessageB] ∧
      (exMailroom.handle_time 0 false).new_messages = [] := by
  decide

theorem map_get_append_self (l : List (PublicKey × List Envelope))
    (k : PublicKey) (v : List Envelope) (h : map_contains_key l k = false) :
    map_get (l ++ [(k, v)]) k = some v := by
  induction l with
  | nil => simp [map_get, List.find?]
  | cons kv rest ih =>
    simp only [map_contains_key, List.any_cons, Bool.or_eq_false_iff] at h
    simp only [map_get, List.cons_append, List.find?]
    rw [h.1]
    have := ih (by simpa [map_contains_key] using h.2)
    simpa [map_get] using this

theorem receive_loop_new_messages_append {A E : Type} (ops : ArchiveOps A E)
    (key : KeyStr) (envs : List Envelope) :
    ∀ (a : A) (nm : List Message) (acc : List Envelope),
      ∃ extra, (receive_loop ops key envs a nm acc).1 = nm ++ extra := by
  induction envs with
  | nil => intro a nm acc; exact ⟨[], by simp [receive_loop]⟩
  | cons e rest ih =>
    intro a nm acc
    unfold receive_loop
    by_cases hmem : e.message ∈ nm
    · simp only [if_pos hmem]
      rcases ha : ops.add_envelope_to_archive a key e with err | a'
      · exact ⟨[], by simp⟩
      · exact ih a' nm (acc ++ [e])
    · simp only [if_neg hmem]
      rcases hb : ops.is_message_in_archive a e.message with err | b
      · exact ⟨[], by simp⟩
      · cases b
        · rcases ha : ops.add_envelope_to_archive a key e with err | a'
          · exact ⟨[e.message], rfl⟩
          · obtain ⟨extra, hx⟩ := ih a' (nm ++ [e.message]) (acc ++ [e])
            exact ⟨[e.message] ++ extra, by rw [hx, List.append_assoc]⟩
        · rcases ha : ops.add_envelope_to_archive a key e with err | a'
          · exact ⟨[], by simp⟩
          · exact ih a' nm acc

/-- C6 (amended).  If `receive_payload` fails with `ArchiveFailure`, then
relative to the state right after period-boundary handling the forwarding
buffers of both periods and `current_message` are unchanged — but
`new_messages` may have grown by the messages admitted before the failing
archive call (the per-sender forwarding list is discarded, since it is
only recorded after the loop). -/
theorem receive_payload_archive_failure_period_state (ops : ArchiveOps Nat Unit)
    (m : Mailroom) (a : Nat) (p : TrustedPayload) (t : Nat) (m' : Mailroom)
    (a' : Nat) (err : Unit)
    (h : m.receive_payload_internal ops a p t = (m', a', some (.ArchiveFailure err))) :
    m'.forwarding_received_this_hour =
        (m.handle_time t false).forwarding_received_this_hour ∧
      m'.forwarding_received_last_hour =
        (m.handle_time t false).forwarding_received_last_hour ∧
      m'.current_message = (m.handle_time t false).current_message ∧
      ∃ extra, m'.new_messages = (m.handle_time t false).new_messages ++ extra := by
  simp only [Mailroom.receive_payload_internal] at h
  split_ifs at h with hc
  · simp at h
  · rcases hloop : receive_loop ops p.certificate.key p.envelopes a
        (m.handle_time t false).new_messages [] with ⟨nm, fwd, a'', errl⟩
    simp only [hloop] at h
    cases errl with
    | none => simp at h
    | some e =>
      obtain ⟨hm, -, -⟩ := Prod.mk.injEq .. ▸ h
      subst hm
      refine ⟨rfl, rfl, rfl, ?_⟩
      have hx := receive_loop_new_messages_append ops p.certificate.key p.envelopes a
        (m.handle_time t false).new_messages []
      rw [hloop] at hx
      exact hx

theorem receive_loop_all_known {A E : Type} (ops : ArchiveOps A E)
    (hadd : ∀ a k e, ∃ a', ops.add_envelope_to_archive a k e = Except.ok a')
    (key : KeyStr) (envs : List Envelope) :
    ∀ (a : A) (nm : List Message) (acc : List Envelope),
      (∀ e ∈ envs, e.message ∈ nm) →
      (receive_loop ops key envs a nm acc).1 = nm ∧
        (receive_loop ops key envs a nm acc).2.1 = acc ++ envs ∧
        (receive_loop ops key envs a nm acc).2.2.2 = none := by
  induction envs with
  | nil => intro a nm acc _; simp [receive_loop]
  | cons e rest ih =>
    intro a nm acc hall
    unfold receive_loop
    simp only [if_pos (hall e (List.mem_cons_self e rest))]
    obtain ⟨a', ha⟩ := hadd a key e
    simp only [ha]
    have := ih a' nm (acc ++ [e]) (fun x hx => hall x (List.mem_cons_of_mem e hx))
    simpa using this

/-- C5 (amended).  If every envelope of a payload carries a message
already admitted to `new_messages` this period (first seen from some
earlier peer) and its sender B has not yet delivered this period, then
receiving it succeeds, `new_messages` is unchanged (nothing is
re-inserted), and the envelopes *are* recorded under B in
`forwarding_received_this_hour` — the same message will be forwarded
onward from B as well; only messages already archived in an earlier period
are skipped. -/
theorem receive_payload_known_messages_recorded_under_second_sender
    (m : Mailroom) (a : MemArchive) (p : TrustedPayload) (t : Nat)
    (hfresh : map_contains_key (m.handle_time t false).forwarding_received_this_hour
        p.public_key = false)
    (hall : ∀ e ∈ p.envelopes, e.message ∈ (m.handle_time t false).new_messages) :
    (m.receive_payload_internal memArchiveOps a p t).2.2 = none ∧
      (m.receive_payload_internal memArchiveOps a p t).1.new_messages =
        (m.handle_time t false).new_messages ∧
      map_get (m.receive_payload_internal memArchiveOps a p t).1.forwarding_received_this_hour
        p.public_key = some p.envelopes := by
  simp only [Mailroom.receive_payload_internal, hfresh, Bool.false_eq_true, if_false]
  rcases hloop : receive_loop memArchiveOps p.certificate.key p.envelopes a
      (m.handle_time t false).new_messages [] with ⟨nm, fwd, a', errl⟩
  have hk := receive_loop_all_known memArchiveOps mem_archive_total_add
    p.certificate.key p.envelopes a (m.handle_time t false).new_messages [] hall
  rw [hloop] at hk
  obtain ⟨h1, h2, h3⟩ := hk
  subst h1
  simp only [List.nil_append] at h2
  subst h2
  simp only [] at h3
  subst h3
  exact ⟨rfl, rfl, map_get_append_self _ _ _ hfresh⟩

/-- C6 witness: the amended atomicity statement applied to the concrete
failing-archive run of the counterexample. -/
theorem receive_payload_archive_failure_period_state_witness :
    (exMailroom.receive_payload_internal countdownArchiveOps 0 exPayloadB 0 =
      ({ exMailroom with new_messages := [exMessageB] }, 0,
        some (.ArchiveFailure ()))) ∧
    (({ exMailroom with new_messages := [exMessageB] } : Mailroom).forwarding_received_this_hour =
        (exMailroom.handle_time 0 false).forwarding_received_this_hour ∧
      ({ exMailroom with new_messages := [exMessageB] } : Mailroom).forwarding_received_last_hour =
        (exMailroom.handle_time 0 false).forwarding_received_last_hour ∧
      ({ exMailroom with new_messages := [exMessageB] } : Mailroom).current_message =
        (exMailroom.handle_time 0 false).current_message ∧
      ∃ extra, ({ exMailroom with new_messages := [exMessageB] } : Mailroom).new_messages =
        (exMailroom.handle_time 0 false).new_messages ++ extra) :=
  ⟨rfl, receive_payload_archive_failure_period_state countdownArchiveOps exMailroom 0
    exPayloadB 0 { exMailroom with new_messages := [exMessageB] } 0 () rfl⟩

/-- C5 witness: the amended first-seen statement applied to the concrete
state of the counterexample (message known from peer `4`, payload arriving
from peer B). -/
theorem receive_payload_known_messages_recorded_witness :
    (map_contains_key (({ Mailroom.new [] exSecretKey with
          last_seen_time := some 0
          new_messages := [exMessageB]
          forwarding_received_this_hour :=
            [(⟨4⟩, [exEnvelopeB])] } : Mailroom).handle_time 0 false).forwarding_received_this_hour
        exPayloadB.public_key = false ∧
      (∀ e ∈ exPayloadB.envelopes, e.message ∈
        (({ Mailroom.new [] exSecretKey with
            last_seen_time := some 0
            new_messages := [exMessageB]
            forwarding_received_this_hour :=
              [(⟨4⟩, [exEnvelopeB])] } : Mailroom).handle_time 0 false).new_messages)) ∧
    ((Mailroom.receive_payload_internal memArchiveOps
        { Mailroom.new [] exSecretKey with
          last_seen_time := some 0
          new_messages := [exMessageB]
          forwarding_received_this_hour := [(⟨4⟩, [exEnvelopeB])] }
        ⟨[exEnvelopeB], [exMessageB]⟩ exPayloadB 0).2.2 = none ∧
      (Mailroom.receive_payload_internal memArchiveOps
          { Mailroom.new [] exSecretKey with
            last_seen_time := some 0
            new_messages := [exMessageB]
            forwarding_received_this_hour := [(⟨4⟩, [exEnvelopeB])] }
          ⟨[exEnvelopeB], [exMessageB]⟩ exPayloadB 0).1.new_messages =
        (({ Mailroom.new [] exSecretKey with
            last_seen_time := some 0
            new_messages := [exMessageB]
            forwarding_received_this_hour :=
              [(⟨4⟩, [exEnvelopeB])] } : Mailroom).handle_time 0 false).new_messages ∧
      map_get (Mailroom.receive_payload_internal memArchiveOps
          { Mailroom.new [] exSecretKey with
            last_seen_time := some 0
            new_messages := [exMessageB]
            forwarding_received_this_hour := [(⟨4⟩, [exEnvelopeB])] }
          ⟨[exEnvelopeB], [exMessageB]⟩ exPayloadB 0).1.forwarding_received_this_hour
        exPayloadB.public_key = some exPayloadB.envelopes) :=
  ⟨⟨by decide, by decide⟩,
    receive_payload_known_messages_recorded_under_second_sender
      { Mailroom.new [] exSecretKey with
        last_seen_time := some 0
        new_messages := [exMessageB]
        forwarding_received_this_hour := [(⟨4⟩, [exEnvelopeB])] }
      ⟨[exEnvelopeB], [exMessageB]⟩ exPayloadB 0 (by decide) (by decide)⟩

theorem mem_forwarding_selection (l : List (PublicKey × List Envelope))
    (dest : PublicKey) (cfg : OutgoingConfig) (pk : PublicKey) (e : Envelope)
    (he : e ∈ ((l.filter (fun kv => kv.1 ≠ dest)).flatMap (fun kv => kv.2)).filterMap
      (forward_envelope cfg pk)) :
    ∃ kv, kv ∈ l ∧ kv.1 ≠ dest ∧ ∃ e₀ ∈ kv.2, forward_envelope cfg pk e₀ = some e := by
  rcases List.mem_filterMap.1 he with ⟨e₀, he₀, hfe⟩
  rcases List.mem_flatMap.1 he₀ with ⟨kv, hkv, hmem⟩
  rcases List.mem_filter.1 hkv with ⟨hkvl, hne⟩
  exact ⟨kv, hkvl, of_decide_eq_true hne, e₀, hmem, hfe⟩

theorem get_outgoing_mem_shape {A E : Type}
    (ops : ArchiveOps A E) (m : Mailroom) (a : A) (dest : PublicKey)
    (cfg : OutgoingConfig) (now : Nat) (og : OutgoingEnvelopes)
    (hok : (m.get_outgoing_internal ops a dest cfg now).2.2 = .ok og) :
    ∀ e ∈ og.envelopes,
      (∃ kv, kv ∈ (m.handle_time now
            (Mailroom.message_this_minute now cfg)).forwarding_received_last_hour ∧
          kv.1 ≠ dest ∧
          ∃ e₀ ∈ kv.2, forward_envelope cfg m.secret_key.public_key e₀ = some e) ∨
      (Mailroom.message_this_minute now cfg = true ∧
        (m.handle_time now (Mailroom.message_this_minute now cfg)).current_message =
          some e.message ∧
        e.forwarded = [] ∧ e.ttl = cfg.initial_ttl) := by
  simp only [Mailroom.get_outgoing_internal] at hok
  intro e he
  by_cases hmin : Mailroom.message_this_minute now cfg = true
  · simp only [hmin, if_true] at hok ⊢
    have hsk : (m.handle_time now true).secret_key = m.secret_key :=
      (handle_time_fields m now true).2.2.1
    cases hcm : (m.handle_time now true).current_message with
    | none =>
      simp only [hcm] at hok
      obtain rfl : _ = og := Except.ok.inj hok
      rw [hsk] at he
      exact Or.inl (mem_forwarding_selection _ dest cfg _ e he)
    | some cm =>
      simp only [hcm] at hok
      rcases hadd : ops.add_envelope_to_archive a cm.certificate.key
          ⟨[], cfg.initial_ttl, cm⟩ with err | a'
      · simp only [hadd] at hok
        exact Except.noConfusion hok
      · simp only [hadd] at hok
        obtain rfl : _ = og := Except.ok.inj hok
        rw [hsk] at he
        rcases List.mem_append.1 he with hleft | hright
        · exact Or.inl (mem_forwarding_selection _ dest cfg _ e hleft)
        · obtain rfl : e = ⟨[], cfg.initial_ttl, cm⟩ := List.mem_singleton.1 hright
          exact Or.inr ⟨trivial, rfl, rfl, rfl⟩
  · have hmin' : Mailroom.message_this_minute now cfg = false := by
      simpa using hmin
    simp only [hmin', Bool.false_eq_true, if_false] at hok ⊢
    have hsk : (m.handle_time now false).secret_key = m.secret_key :=
      (handle_time_fields m now false).2.2.1
    obtain rfl : _ = og := Except.ok.inj hok
    rw [hsk] at he
    exact Or.inl (mem_forwarding_selection _ dest cfg _ e he)

/-- C4 (amended).  `get_outgoing(D)` suppresses by delivering peer, not by
originator: every emitted envelope either derives — via the ttl decrement
and forwarding-log append — from an entry of `forwarding_received_last_hour`
whose key is *not* `D`, or is the fresh envelope carrying the relay's own
current message.  (An envelope whose `message.certificate.key` is `D` but
which was received from another peer is therefore still emitted; see the
counterexample.) -/
theorem get_outgoing_suppresses_by_delivering_peer {A E : Type}
    (ops : ArchiveOps A E) (m : Mailroom) (a : A) (dest : PublicKey)
    (cfg : OutgoingConfig) (now : Nat) (og : OutgoingEnvelopes)
    (hok : (m.get_outgoing_internal ops a dest cfg now).2.2 = .ok og) :
    ∀ e ∈ og.envelopes,
      (∃ kv, kv ∈ (m.handle_time now
            (Mailroom.message_this_minute now cfg)).forwarding_received_last_hour ∧
          kv.1 ≠ dest ∧
          ∃ e₀ ∈ kv.2, forward_envelope cfg m.secret_key.public_key e₀ = some e) ∨
      (Mailroom.message_this_minute now cfg = true ∧
        (m.handle_time now (Mailroom.message_this_minute now cfg)).current_message =
          some e.message ∧
        e.forwarded = [] ∧ e.ttl = cfg.initial_ttl) :=
  get_outgoing_mem_shape ops m a dest cfg now og hok

/-- C4 witness: the provenance statement applied to the concrete state of
the counterexample — the one emitted envelope derives from peer B's entry
(B ≠ destination `3`), even though its message was originated by `3`. -/
theorem get_outgoing_suppresses_by_delivering_peer_witness :
    ((Mailroom.get_outgoing_internal memArchiveOps
        { Mailroom.new [] exSecretKey with
          last_seen_time := some 0
          forwarding_received_last_hour :=
            [(exSecretKeyB.public_key,
              [⟨[], 5, ⟨⟨KeyStr.good 3, Raw.sigOf 3 (.contentsObj ⟨"u2", "d", "line d"⟩)⟩,
                ⟨"u2", "d", "line d"⟩⟩⟩])] }
        exEmptyArchive ⟨3⟩ OutgoingConfig.default 0).2.2 =
      .ok ⟨[⟨[exSecretKey.public_key.to_string], 4,
            ⟨⟨KeyStr.good 3, Raw.sigOf 3 (.contentsObj ⟨"u2", "d", "line d"⟩)⟩,
              ⟨"u2", "d", "line d"⟩⟩⟩], exSecretKey⟩) ∧
    (∀ e ∈ (OutgoingEnvelopes.mk
        [⟨[exSecretKey.public_key.to_string], 4,
          ⟨⟨KeyStr.good 3, Raw.sigOf 3 (.contentsObj ⟨"u2", "d", "line d"⟩)⟩,
            ⟨"u2", "d", "line d"⟩⟩⟩] exSecretKey).envelopes,
      (∃ kv, kv ∈ (Mailroom.handle_time
            { Mailroom.new [] exSecretKey with
              last_seen_time := some 0
              forwarding_received_last_hour :=
                [(exSecretKeyB.public_key,
                  [⟨[], 5, ⟨⟨KeyStr.good 3, Raw.sigOf 3 (.contentsObj ⟨"u2", "d", "line d"⟩)⟩,
                    ⟨"u2", "d", "line d"⟩⟩⟩])] } 0
            (Mailroom.message_this_minute 0 OutgoingConfig.default)).forwarding_received_last_hour ∧
        kv.1 ≠ (⟨3⟩ : PublicKey) ∧
        ∃ e₀ ∈ kv.2, forward_envelope OutgoingConfig.default
          ({ Mailroom.new [] exSecretKey with
            last_seen_time := some 0
            forwarding_received_last_hour :=
              [(exSecretKeyB.public_key,
                [⟨[], 5, ⟨⟨KeyStr.good 3, Raw.sigOf 3 (.contentsObj ⟨"u2", "d", "line d"⟩)⟩,
                  ⟨"u2", "d", "line d"⟩⟩⟩])] } : Mailroom).secret_key.public_key e₀ = some e) ∨
      (Mailroom.message_this_minute 0 OutgoingConfig.default = true ∧
        (Mailroom.handle_time
            { Mailroom.new [] exSecretKey with
              last_seen_time := some 0
              forwarding_received_last_hour :=
                [(exSecretKeyB.public_key,
                  [⟨[], 5, ⟨⟨KeyStr.good 3, Raw.sigOf 3 (.contentsObj ⟨"u2", "d", "line d"⟩)⟩,
                    ⟨"u2", "d", "line d"⟩⟩⟩])] } 0
            (Mailroom.message_this_minute 0 OutgoingConfig.default)).current_message =
          some e.message ∧
        e.forwarded = [] ∧ e.ttl = OutgoingConfig.default.initial_ttl)) :=
  ⟨by decide,
    get_outgoing_suppresses_by_delivering_peer memArchiveOps
      { Mailroom.new [] exSecretKey with
        last_seen_time := some 0
        forwarding_received_last_hour :=
          [(exSecretKeyB.public_key,
            [⟨[], 5, ⟨⟨KeyStr.good 3, Raw.sigOf 3 (.contentsObj ⟨"u2", "d", "line d"⟩)⟩,
              ⟨"u2", "d", "line d"⟩⟩⟩])] }
      exEmptyArchive ⟨3⟩ OutgoingConfig.default 0
      ⟨[⟨[exSecretKey.public_key.to_string], 4,
        ⟨⟨KeyStr.good 3, Raw.sigOf 3 (.contentsObj ⟨"u2", "d", "line d"⟩)⟩,
          ⟨"u2", "d", "line d"⟩⟩⟩], exSecretKey⟩ (by decide)⟩

theorem trust_envelopes_filter (l : List UnverifiedEnvelope)
    (hkeys : ∀ ue ∈ l, ue.key_decodes = true)
    (hcont : ∀ ue ∈ l, ue.inner_verifies = true →
      (parse_contents ue.contents_raw_json).isSome = true) :
    trust_envelopes l = .ok
      (l.filterMap (fun ue => if ue.inner_verifies then ue.to_envelope else none),
        (l.filter (fun ue => ! ue.inner_verifies)).length) := by
  induction l with
  | nil => rfl
  | cons ue rest ih =>
    have hk := hkeys ue (List.mem_cons_self ue rest)
    have hc := hcont ue (List.mem_cons_self ue rest)
    have ihr := ih (fun x hx => hkeys x (List.mem_cons_of_mem ue hx))
      (fun x hx => hcont x (List.mem_cons_of_mem ue hx))
    unfold trust_envelopes
    rcases hdec : PublicKey.new_from_b64 ue.certificate.key with err | key
    · simp [UnverifiedEnvelope.key_decodes, hdec] at hk
    · simp only [hdec]
      cases hvb : key.verify (get_canon_json_bytes ue.contents_raw_json)
          ue.certificate.signature with
      | false =>
        have hcs : check_signature ue.certificate.signature key ue.contents_raw_json =
            .error .CannotVerify := by
          simp [check_signature, hvb]
        have hiv : ue.inner_verifies = false := by
          simp [UnverifiedEnvelope.inner_verifies, hdec, hcs]
        simp only [hcs, ihr, List.filterMap_cons, List.filter_cons, hiv,
          Bool.not_false, if_true, if_false, Bool.false_eq_true, List.length_cons]
      | true =>
        have hcs : check_signature ue.certificate.signature key ue.contents_raw_json =
            .ok () := by
          simp [check_signature, hvb]
        have hiv : ue.inner_verifies = true := by
          simp [UnverifiedEnvelope.inner_verifies, hdec, hcs]
        rcases hp : parse_contents ue.contents_raw_json with _ | c
        · rw [hiv] at hc
          simp [hp] at hc
        · simp only [hcs, hp, ihr, List.filterMap_cons, List.filter_cons, hiv,
            Bool.not_true, if_true, if_false, Bool.false_eq_true,
            UnverifiedEnvelope.to_envelope]
          simp [hp]

/-- C7 (amended).  For every payload whose outer certificate key decodes
and is trusted and whose outer signature verifies, *provided* every
envelope's inner certificate key decodes and every envelope whose inner
signature verifies has parseable contents, `try_trust` returns `Ok`; the
envelopes whose inner signature verifies are included in input order, and
each envelope whose inner signature fails adds exactly one to
`unverified_messages_count` and is excluded.  (Without the two provisos
the whole payload is rejected — see the counterexample and C10.) -/
theorem try_trust_counts_and_discards (p : UntrustedPayload)
    (trusted : List PublicKey) (k : PublicKey) (l : List UnverifiedEnvelope)
    (hdec : PublicKey.new_from_b64 p.certificate.key = .ok k)
    (htr : trusted.contains k = true)
    (hsig : check_signature p.certificate.signature k p.envelopes_raw_value = .ok ())
    (hparse : parse_unverified_envelopes p.envelopes_raw_value = some l)
    (hkeys : ∀ ue ∈ l, ue.key_decodes = true)
    (hcont : ∀ ue ∈ l, ue.inner_verifies = true →
      (parse_contents ue.contents_raw_json).isSome = true) :
    p.try_trust trusted = .ok ⟨k, p.certificate,
      l.filterMap (fun ue => if ue.inner_verifies then ue.to_envelope else none),
      (l.filter (fun ue => ! ue.inner_verifies)).length⟩ := by
  simp only [UntrustedPayload.try_trust, hdec, htr, hsig, hparse,
    trust_envelopes_filter l hkeys hcont, Bool.not_true, Bool.false_eq_true,
    not_true_eq_false, if_false, ite_false]

/-- C7 witness: a concrete trusted, outer-verified payload with one
verifying envelope and one envelope whose inner signature fails —
`try_trust` returns `Ok`, keeps the verifying envelope, and counts the
failing one. -/
theorem try_trust_counts_and_discards_witness :
    ((PublicKey.new_from_b64 (UntrustedPayload.mk
        ⟨KeyStr.good 1, Raw.sigOf 1 (.envCons exEnvelopeB.to_raw
          (.envCons (.envObj [] 5 (.good 9) (.bogus 3)
            (.contentsObj ⟨"u5", "z", "noise"⟩)) .envNil))⟩
        (.envCons exEnvelopeB.to_raw
          (.envCons (.envObj [] 5 (.good 9) (.bogus 3)
            (.contentsObj ⟨"u5", "z", "noise"⟩)) .envNil))).certificate.key = .ok ⟨1⟩) ∧
      parse_unverified_envelopes (.envCons exEnvelopeB.to_raw
        (.envCons (.envObj [] 5 (.good 9) (.bogus 3)
          (.contentsObj ⟨"u5", "z", "noise"⟩)) .envNil)) =
        some [exEnvelopeB.to_unverified,
          ⟨[], 5, ⟨.good 9, .bogus 3⟩, .contentsObj ⟨"u5", "z", "noise"⟩⟩]) ∧
    (UntrustedPayload.mk
        ⟨KeyStr.good 1, Raw.sigOf 1 (.envCons exEnvelopeB.to_raw
          (.envCons (.envObj [] 5 (.good 9) (.bogus 3)
            (.contentsObj ⟨"u5", "z", "noise"⟩)) .envNil))⟩
        (.envCons exEnvelopeB.to_raw
          (.envCons (.envObj [] 5 (.good 9) (.bogus 3)
            (.contentsObj ⟨"u5", "z", "noise"⟩)) .envNil))).try_trust [⟨1⟩] =
      .ok ⟨⟨1⟩,
        ⟨KeyStr.good 1, Raw.sigOf 1 (.envCons exEnvelopeB.to_raw
          (.envCons (.envObj [] 5 (.good 9) (.bogus 3)
            (.contentsObj ⟨"u5", "z", "noise"⟩)) .envNil))⟩,
        [exEnvelopeB], 1⟩ :=
  ⟨⟨by decide, by decide⟩,
    (try_trust_counts_and_discards
      (UntrustedPayload.mk
        ⟨KeyStr.good 1, Raw.sigOf 1 (.envCons exEnvelopeB.to_raw
          (.envCons (.envObj [] 5 (.good 9) (.bogus 3)
            (.contentsObj ⟨"u5", "z", "noise"⟩)) .envNil))⟩
        (.envCons exEnvelopeB.to_raw
          (.envCons (.envObj [] 5 (.good 9) (.bogus 3)
            (.contentsObj ⟨"u5", "z", "noise"⟩)) .envNil)))
      [⟨1⟩] ⟨1⟩
      [exEnvelopeB.to_unverified,
        ⟨[], 5, ⟨.good 9, .bogus 3⟩, .contentsObj ⟨"u5", "z", "noise"⟩⟩]
      (by decide) (by decide) (by decide) (by decide) (by decide)
      (by decide)).trans (by decide)⟩

theorem parse_roundtrip (envs : List Envelope) (httl : ∀ e ∈ envs, e.ttl < 256) :
    parse_unverified_envelopes (envelopes_to_raw envs) =
      some (envs.map Envelope.to_unverified) := by
  induction envs with
  | nil => rfl
  | cons e rest ih =>
    have h := httl e (List.mem_cons_self e rest)
    have ihr := ih (fun x hx => httl x (List.mem_cons_of_mem e hx))
    simp [envelopes_to_raw, parse_unverified_envelopes, parse_unverified_envelope,
      Envelope.to_raw, Envelope.to_unverified, h, ihr]

theorem trust_roundtrip (envs : List Envelope)
    (hws : ∀ e ∈ envs, e.message.well_signed = true) :
    trust_envelopes (envs.map Envelope.to_unverified) = .ok (envs, 0) := by
  induction envs with
  | nil => rfl
  | cons e rest ih =>
    have h := hws e (List.mem_cons_self e rest)
    have ihr := ih (fun x hx => hws x (List.mem_cons_of_mem e hx))
    rcases hkk : e.message.certificate.key with k | n
    · simp only [Message.well_signed, hkk] at h
      have hsg : e.message.certificate.signature =
          Raw.sigOf k (.contentsObj e.message.contents) := by
        simpa using h
      simp [List.map_cons, trust_envelopes, Envelope.to_unverified, hkk,
        PublicKey.new_from_b64, check_signature, PublicKey.verify,
        get_canon_json_bytes, hsg, parse_contents, ihr]
    · simp [Message.well_signed, hkk] at h

theorem create_payload_roundtrip (envs : List Envelope) (sk : SecretKey)
    (hws : ∀ e ∈ envs, e.message.well_signed = true)
    (httl : ∀ e ∈ envs, e.ttl < 256) :
    UntrustedPayload.from_json (OutgoingEnvelopes.mk envs sk).create_payload =
        .ok ⟨⟨sk.public_key.to_string, sk.sign (envelopes_to_raw envs)⟩,
          envelopes_to_raw envs⟩ ∧
      (UntrustedPayload.mk
          ⟨sk.public_key.to_string, sk.sign (envelopes_to_raw envs)⟩
          (envelopes_to_raw envs)).try_trust [sk.public_key] =
        .ok ⟨sk.public_key,
          ⟨sk.public_key.to_string, sk.sign (envelopes_to_raw envs)⟩, envs, 0⟩ := by
  refine ⟨rfl, ?_⟩
  simp [UntrustedPayload.try_trust, PublicKey.to_string, PublicKey.new_from_b64,
    check_signature, PublicKey.verify, get_canon_json_bytes, SecretKey.sign,
    SecretKey.public_key, parse_roundtrip envs httl, trust_roundtrip envs hws]

theorem set_new_message_current (m : Mailroom) :
    m.set_new_message.current_message = none ∨
      ∃ msg, m.set_new_message.current_message = some msg ∧
        msg.well_signed = true := by
  unfold Mailroom.set_new_message
  cases m.line_generator with
  | nil => exact Or.inl rfl
  | cons nl rest =>
    refine Or.inr ⟨_, rfl, ?_⟩
    simp [Message.well_signed, SecretKey.public_key, PublicKey.to_string,
      SecretKey.sign, get_canon_json_bytes]

theorem handle_time_components (m : Mailroom) (now : Nat) (b : Bool) :
    ((m.handle_time now b).forwarding_received_this_hour =
        m.forwarding_received_this_hour ∨
      (m.handle_time now b).forwarding_received_this_hour = []) ∧
    ((m.handle_time now b).forwarding_received_last_hour =
        m.forwarding_received_last_hour ∨
      (m.handle_time now b).forwarding_received_last_hour =
        m.forwarding_received_this_hour ∨
      (m.handle_time now b).forwarding_received_last_hour = []) ∧
    ((m.handle_time now b).current_message = m.current_message ∨
      (m.handle_time now b).current_message = none ∨
      ∃ msg, (m.handle_time now b).current_message = some msg ∧
        msg.well_signed = true) := by
  unfold Mailroom.handle_time
  cases hseen : m.last_seen_time <;>
    simp only [] <;>
    split_ifs <;>
    refine ⟨?_, ?_, ?_⟩ <;>
    first
      | exact Or.inr (set_new_message_current _)
      | simp [set_new_message_fields]

theorem well_signed_state_iff (m : Mailroom) :
    m.well_signed_state = true ↔
      (∀ kv ∈ m.forwarding_received_this_hour, ∀ e ∈ kv.2,
          e.message.well_signed = true) ∧
        (∀ kv ∈ m.forwarding_received_last_hour, ∀ e ∈ kv.2,
          e.message.well_signed = true) ∧
        (∀ msg, m.current_message = some msg → msg.well_signed = true) := by
  simp only [Mailroom.well_signed_state, Bool.and_eq_true, List.all_eq_true]
  cases m.current_message <;> simp <;> tauto

theorem handle_time_well_signed (m : Mailroom) (now : Nat) (b : Bool)
    (h : m.well_signed_state = true) :
    (m.handle_time now b).well_signed_state = true := by
  rw [well_signed_state_iff] at h ⊢
  obtain ⟨h1, h2, h3⟩ := h
  obtain ⟨c1, c2, c3⟩ := handle_time_components m now b
  refine ⟨?_, ?_, ?_⟩
  · rcases c1 with hc | hc <;> rw [hc]
    · exact h1
    · simp
  · rcases c2 with hc | hc | hc <;> rw [hc]
    · exact h2
    · exact h1
    · simp
  · rcases c3 with hc | hc | ⟨msg, hmsg, hws⟩ <;> intro x hx
    · rw [hc] at hx; exact h3 x hx
    · rw [hc] at hx; exact Option.noConfusion hx
    · rw [hmsg] at hx
      obtain rfl := Option.some.inj hx
      exact hws

theorem forward_envelope_some (cfg : OutgoingConfig) (pk : PublicKey)
    (e₀ e : Envelope) (h : forward_envelope cfg pk e₀ = some e) :
    e.message = e₀.message ∧ e.ttl ≤ cfg.max_forwarding_ttl := by
  simp only [forward_envelope] at h
  split_ifs at h with ht
  · obtain rfl := Option.some.inj h
    exact ⟨rfl, Nat.min_le_left _ _⟩

theorem get_outgoing_envelopes_ok {A E : Type} (ops : ArchiveOps A E)
    (m : Mailroom) (a : A) (dest : PublicKey) (cfg : OutgoingConfig) (now : Nat)
    (og : OutgoingEnvelopes) (hws : m.well_signed_state = true)
    (hinit : cfg.initial_ttl < 256) (hmax : cfg.max_forwarding_ttl < 256)
    (hok : (m.get_outgoing_internal ops a dest cfg now).2.2 = .ok og) :
    og.secret_key = m.secret_key ∧
      ∀ e ∈ og.envelopes, e.message.well_signed = true ∧ e.ttl < 256 := by
  have hmem := get_outgoing_mem_shape ops m a dest cfg now og hok
  have hws' := handle_time_well_signed m now (Mailroom.message_this_minute now cfg) hws
  rw [well_signed_state_iff] at hws'
  constructor
  · simp only [Mailroom.get_outgoing_internal] at hok
    have hsk := (handle_time_fields m now (Mailroom.message_this_minute now cfg)).2.2.1
    split_ifs at hok
    · rcases hcm : (m.handle_time now (Mailroom.message_this_minute now cfg)).current_message
        with _ | cm <;> simp only [hcm] at hok
      · obtain rfl : _ = og := Except.ok.inj hok
        exact hsk
      · rcases hadd : ops.add_envelope_to_archive a cm.certificate.key
            ⟨[], cfg.initial_ttl, cm⟩ with err | a' <;> simp only [hadd] at hok
        · exact Except.noConfusion hok
        · obtain rfl : _ = og := Except.ok.inj hok
          exact hsk
    · obtain rfl : _ = og := Except.ok.inj hok
      exact hsk
  · intro e he
    rcases hmem e he with ⟨kv, hkv, -, e₀, he₀, hfe⟩ | ⟨-, hcm, -, httl⟩
    · obtain ⟨hmsg, httl⟩ := forward_envelope_some cfg m.secret_key.public_key e₀ e hfe
      refine ⟨?_, lt_of_le_of_lt httl hmax⟩
      rw [hmsg]
      exact hws'.2.1 kv hkv e₀ he₀
    · refine ⟨hws'.2.2 e.message hcm, ?_⟩
      rw [httl]
      exact hinit

/-- C1.  Round-trip fidelity of signing: whenever `get_outgoing` succeeds
on a mailroom whose emittable state is well signed (true of every state
the program reaches) and whose ttl configuration fits in a `u8`, parsing
the string produced by `create_payload` and calling `try_trust` with only
the mailroom's own public key trusted returns `Ok`, with exactly the
outgoing envelopes and `unverified_messages_count = 0`. -/
theorem create_payload_try_trust_roundtrip (m : Mailroom) (a : MemArchive)
    (dest : PublicKey) (cfg : OutgoingConfig) (now : Nat) (og : OutgoingEnvelopes)
    (hws : m.well_signed_state = true)
    (hinit : cfg.initial_ttl < 256) (hmax : cfg.max_forwarding_ttl < 256)
    (hok : (m.get_outgoing_internal memArchiveOps a dest cfg now).2.2 = .ok og) :
    UntrustedPayload.from_json og.create_payload =
        .ok ⟨⟨m.secret_key.public_key.to_string,
          m.secret_key.sign (envelopes_to_raw og.envelopes)⟩,
          envelopes_to_raw og.envelopes⟩ ∧
      (UntrustedPayload.mk
          ⟨m.secret_key.public_key.to_string,
            m.secret_key.sign (envelopes_to_raw og.envelopes)⟩
          (envelopes_to_raw og.envelopes)).try_trust [m.secret_key.public_key] =
        .ok ⟨m.secret_key.public_key,
          ⟨m.secret_key.public_key.to_string,
            m.secret_key.sign (envelopes_to_raw og.envelopes)⟩,
          og.envelopes, 0⟩ := by
  obtain ⟨hsk, hprops⟩ :=
    get_outgoing_envelopes_ok memArchiveOps m a dest cfg now og hws hinit hmax hok
  have h := create_payload_roundtrip og.envelopes og.secret_key
    (fun e he => (hprops e he).1) (fun e he => (hprops e he).2)
  rw [← hsk]
  exact h

/-- C1 witness: a concrete mailroom holding one well-signed envelope from
peer B; its outgoing payload for peer `3` parses and trusts back to
exactly the emitted envelope with zero unverified messages. -/
theorem create_payload_try_trust_roundtrip_witness :
    (({ Mailroom.new [] exSecretKey with
          last_seen_time := some 0
          forwarding_received_last_hour :=
            [(exSecretKeyB.public_key, [exEnvelopeB])] } : Mailroom).well_signed_state
        = true ∧
      OutgoingConfig.default.initial_ttl < 256 ∧
      OutgoingConfig.default.max_forwarding_ttl < 256 ∧
      (Mailroom.get_outgoing_internal memArchiveOps
          { Mailroom.new [] exSecretKey with
            last_seen_time := some 0
            forwarding_received_last_hour :=
              [(exSecretKeyB.public_key, [exEnvelopeB])] }
          exEmptyArchive ⟨3⟩ OutgoingConfig.default 0).2.2 =
        .ok ⟨[⟨[KeyStr.good 1], 4, exMessageB⟩], exSecretKey⟩) ∧
    (UntrustedPayload.from_json
        (OutgoingEnvelopes.mk [⟨[KeyStr.good 1], 4, exMessageB⟩]
          exSecretKey).create_payload =
        .ok ⟨⟨exSecretKey.public_key.to_string,
          exSecretKey.sign (envelopes_to_raw [⟨[KeyStr.good 1], 4, exMessageB⟩])⟩,
          envelopes_to_raw [⟨[KeyStr.good 1], 4, exMessageB⟩]⟩ ∧
      (UntrustedPayload.mk
          ⟨exSecretKey.public_key.to_string,
            exSecretKey.sign (envelopes_to_raw [⟨[KeyStr.good 1], 4, exMessageB⟩])⟩
          (envelopes_to_raw [⟨[KeyStr.good 1], 4, exMessageB⟩])).try_trust
          [exSecretKey.public_key] =
        .ok ⟨exSecretKey.public_key,
          ⟨exSecretKey.public_key.to_string,
            exSecretKey.sign (envelopes_to_raw [⟨[KeyStr.good 1], 4, exMessageB⟩])⟩,
          [⟨[KeyStr.good 1], 4, exMessageB⟩], 0⟩) :=
  ⟨⟨by decide, by decide, by decide, by decide⟩,
    create_payload_try_trust_roundtrip
      { Mailroom.new [] exSecretKey with
        last_seen_time := some 0
        forwarding_received_last_hour :=
          [(exSecretKeyB.public_key, [exEnvelopeB])] }
      exEmptyArchive ⟨3⟩ OutgoingConfig.default 0
      ⟨[⟨[KeyStr.good 1], 4, exMessageB⟩], exSecretKey⟩
      (by decide) (by decide) (by decide) (by decide)⟩

/-- C8 counterexample: a request body that parses as a payload but whose
certificate key is malformed base64.  The claim maps `MalformedPublicKey`
to HTTP 400; the listener actually answers 403 (every `try_trust` failure
is reported as "not trusted"). -/
theorem respond_to_sender_malformed_key_is_403 :
    (UntrustedPayload.from_json (.payloadText ⟨KeyStr.bad 0, Raw.bogus 0⟩ .envNil) =
        .ok ⟨⟨KeyStr.bad 0, Raw.bogus 0⟩, .envNil⟩ ∧
      (UntrustedPayload.mk ⟨KeyStr.bad 0, Raw.bogus 0⟩ .envNil).try_trust
          [exSecretKeyB.public_key] = .error .MalformedPublicKey) ∧
    (respond_to_sender memArchiveOps [exSecretKeyB.public_key]
        OutgoingConfig.default exMailroom exEmptyArchive
        (.payloadText ⟨KeyStr.bad 0, Raw.bogus 0⟩ .envNil) 0).2.2 =
      .error (403, "payload certificate key not trusted") := by
  exact ⟨⟨rfl, by decide⟩, by decide⟩

/-- C8 (amended).  The listener's status mapping: 400 exactly when the
body fails to parse as a payload document; 403 for *every* trust failure
(untrusted sender, malformed outer or inner public key, signature failure,
unparseable envelope contents) and for a duplicate delivery this period;
500 on an archive failure in either the receive or the reply-building
step; 200 with the signed reply payload on success. -/
theorem respond_to_sender_status_mapping {A E : Type} (ops : ArchiveOps A E)
    (trusted : List PublicKey) (cfg : OutgoingConfig) (m : Mailroom) (a : A)
    (body : RequestBody) (now : Nat) :
    (∀ err, UntrustedPayload.from_json body = .error err →
      (respond_to_sender ops trusted cfg m a body now).2.2 =
        .error (400, "payload malformed")) ∧
    (∀ up err, UntrustedPayload.from_json body = .ok up →
      up.try_trust trusted = .error err →
      (respond_to_sender ops trusted cfg m a body now).2.2 =
        .error (403, "payload certificate key not trusted")) ∧
    (∀ up tp m₁ a₁, UntrustedPayload.from_json body = .ok up →
      up.try_trust trusted = .ok tp →
      m.receive_payload_internal ops a tp now = (m₁, a₁, some .AlreadyReceivedFromKey) →
      (respond_to_sender ops trusted cfg m a body now).2.2 =
        .error (403, "already received payload with this certificate key this period")) ∧
    (∀ up tp m₁ a₁ e, UntrustedPayload.from_json body = .ok up →
      up.try_trust trusted = .ok tp →
      m.receive_payload_internal ops a tp now = (m₁, a₁, some (.ArchiveFailure e)) →
      (respond_to_sender ops trusted cfg m a body now).2.2 =
        .error (500, "db error sorry")) ∧
    (∀ up tp m₁ a₁ m₂ a₂ og, UntrustedPayload.from_json body = .ok up →
      up.try_trust trusted = .ok tp →
      m.receive_payload_internal ops a tp now = (m₁, a₁, none) →
      m₁.get_outgoing_internal ops a₁ tp.public_key cfg now = (m₂, a₂, .ok og) →
      (respond_to_sender ops trusted cfg m a body now).2.2 =
        .ok og.create_payload) ∧
    (∀ up tp m₁ a₁ m₂ a₂ err, UntrustedPayload.from_json body = .ok up →
      up.try_trust trusted = .ok tp →
      m.receive_payload_internal ops a tp now = (m₁, a₁, none) →
      m₁.get_outgoing_internal ops a₁ tp.public_key cfg now = (m₂, a₂, .error err) →
      (respond_to_sender ops trusted cfg m a body now).2.2 =
        .error (500, "db error sorry")) := by
  refine ⟨?_, ?_, ?_, ?_, ?_, ?_⟩
  · intro err h
    simp [respond_to_sender, h]
  · intro up err h1 h2
    simp [respond_to_sender, h1, h2]
  · intro up tp m₁ a₁ h1 h2 h3
    simp [respond_to_sender, h1, h2, h3]
  · intro up tp m₁ a₁ e h1 h2 h3
    simp [respond_to_sender, h1, h2, h3]
  · intro up tp m₁ a₁ m₂ a₂ og h1 h2 h3 h4
    simp [respond_to_sender, h1, h2, h3, h4]
  · intro up tp m₁ a₁ m₂ a₂ err h1 h2 h3 h4
    simp [respond_to_sender, h1, h2, h3, h4]

/-- C8 witness: the status mapping applied on three concrete runs — an
unparseable body answers 400, a payload from an untrusted key answers
403, and a valid first delivery from trusted peer B answers 200 with the
signed reply payload. -/
theorem respond_to_sender_status_mapping_witness :
    (UntrustedPayload.from_json (RequestBody.junk 0) = .error .CannotParseJson ∧
      (UntrustedPayload.mk
        ⟨exSecretKeyB.public_key.to_string,
          exSecretKeyB.sign (envelopes_to_raw [exEnvelopeB])⟩
        (envelopes_to_raw [exEnvelopeB])).try_trust [⟨9⟩] =
          .error .PublicKeyNotTrusted ∧
      (UntrustedPayload.mk
        ⟨exSecretKeyB.public_key.to_string,
          exSecretKeyB.sign (envelopes_to_raw [exEnvelopeB])⟩
        (envelopes_to_raw [exEnvelopeB])).try_trust [exSecretKeyB.public_key] =
          .ok ⟨exSecretKeyB.public_key,
            ⟨exSecretKeyB.public_key.to_string,
              exSecretKeyB.sign (envelopes_to_raw [exEnvelopeB])⟩,
            [exEnvelopeB], 0⟩) ∧
    ((respond_to_sender memArchiveOps [exSecretKeyB.public_key]
        OutgoingConfig.default exMailroom exEmptyArchive (RequestBody.junk 0) 0).2.2 =
      .error (400, "payload malformed") ∧
    (respond_to_sender memArchiveOps [⟨9⟩] OutgoingConfig.default exMailroom
        exEmptyArchive exBodyB 0).2.2 =
      .error (403, "payload certificate key not trusted") ∧
    (respond_to_sender memArchiveOps [exSecretKeyB.public_key]
        OutgoingConfig.default exMailroom exEmptyArchive exBodyB 0).2.2 =
      .ok ((OutgoingEnvelopes.mk [] exSecretKey).create_payload)) :=
  ⟨⟨rfl, by decide, by decide⟩,
    (respond_to_sender_status_mapping memArchiveOps [exSecretKeyB.public_key]
      OutgoingConfig.default exMailroom exEmptyArchive (RequestBody.junk 0) 0).1
      .CannotParseJson rfl,
    (respond_to_sender_status_mapping memArchiveOps [⟨9⟩]
      OutgoingConfig.default exMailroom exEmptyArchive exBodyB 0).2.1
      ⟨⟨exSecretKeyB.public_key.to_string,
        exSecretKeyB.sign (envelopes_to_raw [exEnvelopeB])⟩,
        envelopes_to_raw [exEnvelopeB]⟩
      .PublicKeyNotTrusted rfl (by decide),
    (respond_to_sender_status_mapping memArchiveOps [exSecretKeyB.public_key]
      OutgoingConfig.default exMailroom exEmptyArchive exBodyB 0).2.2.2.2.1
      ⟨⟨exSecretKeyB.public_key.to_string,
        exSecretKeyB.sign (envelopes_to_raw [exEnvelopeB])⟩,
        envelopes_to_raw [exEnvelopeB]⟩
      ⟨exSecretKeyB.public_key,
        ⟨exSecretKeyB.public_key.to_string,
          exSecretKeyB.sign (envelopes_to_raw [exEnvelopeB])⟩,
        [exEnvelopeB], 0⟩
      { exMailroom with
        new_messages := [exMessageB]
        forwarding_received_this_hour := [(exSecretKeyB.public_key, [exEnvelopeB])] }
      ⟨[exEnvelopeB], [exMessageB]⟩
      { exMailroom with
        new_messages := [exMessageB]
        forwarding_received_this_hour := [(exSecretKeyB.public_key, [exEnvelopeB])]
        last_updated_message_time := some 0 }
      ⟨[exEnvelopeB], [exMessageB]⟩
      ⟨[], exSecretKey⟩
      rfl (by decide) rfl rfl⟩

theorem parse_unverified_envelope_ttl (r : Raw) (ue : UnverifiedEnvelope)
    (h : parse_unverified_envelope r = some ue) : ue.ttl < 256 := by
  cases r <;> simp [parse_unverified_envelope] at h
  obtain ⟨ht, rfl⟩ := h
  exact ht

theorem parse_unverified_envelopes_ttl (r : Raw) :
    ∀ l, parse_unverified_envelopes r = some l → ∀ ue ∈ l, ue.ttl < 256 := by
  induction r with
  | envCons head tail ih_head ih_tail =>
    intro l h ue hue
    simp only [parse_unverified_envelopes, Option.bind_eq_bind, Option.bind_eq_some,
      Option.pure_def, Option.some.injEq] at h
    obtain ⟨u, hu, rest, hrest, rfl⟩ := h
    rcases List.mem_cons.1 hue with rfl | hmem
    · exact parse_unverified_envelope_ttl head ue hu
    · exact ih_tail rest hrest ue hmem
  | envNil =>
    intro l h ue hue
    obtain rfl : [] = l := Option.some.inj h
    exact absurd hue (List.not_mem_nil ue)
  | envObj f t k s c => intro l h; simp [parse_unverified_envelopes] at h
  | contentsObj c => intro l h; simp [parse_unverified_envelopes] at h
  | sigOf k b => intro l h; simp [parse_unverified_envelopes] at h
  | bogus n => intro l h; simp [parse_unverified_envelopes] at h
  | other n => intro l h; simp [parse_unverified_envelopes] at h

theorem trust_envelopes_ok_well_signed (l : List UnverifiedEnvelope) :
    ∀ es n, trust_envelopes l = .ok (es, n) → (∀ ue ∈ l, ue.ttl < 256) →
      ∀ e ∈ es, e.message.well_signed = true ∧ e.ttl < 256 := by
  induction l with
  | nil =>
    intro es n h _ e he
    obtain ⟨rfl, -⟩ := Prod.mk.injEq .. ▸ Except.ok.inj h.symm
    exact absurd he (List.not_mem_nil e)
  | cons ue rest ih =>
    intro es n h httl e he
    unfold trust_envelopes at h
    rcases hdec : PublicKey.new_from_b64 ue.certificate.key with err | key <;>
      simp only [hdec] at h
    · exact Except.noConfusion h
    · have httl_rest := fun x hx => httl x (List.mem_cons_of_mem ue hx)
      cases hvb : key.verify (get_canon_json_bytes ue.contents_raw_json)
          ue.certificate.signature
      · have hcs : check_signature ue.certificate.signature key
            ue.contents_raw_json = .error .CannotVerify := by
          simp [check_signature, hvb]
        simp only [hcs] at h
        rcases hrest : trust_envelopes rest with err | ⟨es', n'⟩ <;>
          simp only [hrest] at h
        · exact Except.noConfusion h
        · obtain ⟨rfl, -⟩ := Prod.mk.injEq .. ▸ Except.ok.inj h.symm
          exact ih _ _ hrest httl_rest e he
      · have hcs : check_signature ue.certificate.signature key
            ue.contents_raw_json = .ok () := by
          simp [check_signature, hvb]
        simp only [hcs] at h
        rcases hp : parse_contents ue.contents_raw_json with _ | c <;>
          simp only [hp] at h
        · exact Except.noConfusion h
        · rcases hrest : trust_envelopes rest with err | ⟨es', n'⟩ <;>
          simp only [hrest] at h
          · exact Except.noConfusion h
          · obtain ⟨rfl, -⟩ := Prod.mk.injEq .. ▸ Except.ok.inj h.symm
            rcases List.mem_cons.1 he with rfl | hmem
            · refine ⟨?_, httl ue (List.mem_cons_self ue rest)⟩
              rcases hkk : ue.certificate.key with k | nn
              · rw [hkk] at hdec
                obtain rfl : PublicKey.mk k = key := Except.ok.inj hdec
                simp only [PublicKey.verify, get_canon_json_bytes] at hvb
                have hsg : ue.certificate.signature =
                    Raw.sigOf k ue.contents_raw_json := by
                  simpa using hvb
                have hcr : ue.contents_raw_json = .contentsObj c := by
                  cases hcrr : ue.contents_raw_json <;>
                    simp [parse_contents, hcrr] at hp <;> simp [hp]
                simp [Message.well_signed, hkk, hsg, hcr]
              · rw [hkk] at hdec
                exact Except.noConfusion hdec
            · exact ih _ _ hrest httl_rest e hmem

/-- Envelopes admitted by `try_trust` are well signed and carry a `u8`
ttl — this is what makes the well-signedness hypothesis of the round-trip
theorem hold in every reachable mailroom state. -/
theorem try_trust_envelopes_well_signed (p : UntrustedPayload)
    (trusted : List PublicKey) (tp : TrustedPayload)
    (h : p.try_trust trusted = .ok tp) :
    ∀ e ∈ tp.envelopes, e.message.well_signed = true ∧ e.ttl < 256 := by
  unfold UntrustedPayload.try_trust at h
  rcases hdec : PublicKey.new_from_b64 p.certificate.key with err | key <;>
    simp only [hdec] at h
  · exact Except.noConfusion h
  · split_ifs at h
    rcases hcs : check_signature p.certificate.signature key
        p.envelopes_raw_value with e0 | u <;> simp only [hcs] at h
    · exact Except.noConfusion h
    · rcases hpar : parse_unverified_envelopes p.envelopes_raw_value with _ | l <;>
        simp only [hpar] at h
      · exact Except.noConfusion h
      · rcases hte : trust_envelopes l with e1 | ⟨es, n⟩ <;> simp only [hte] at h
        · exact Except.noConfusion h
        · obtain rfl : _ = tp := Except.ok.inj h
          exact trust_envelopes_ok_well_signed l es n hte
            (parse_unverified_envelopes_ttl p.envelopes_raw_value l hpar)

theorem receive_loop_acc_mem {A E : Type} (ops : ArchiveOps A E) (key : KeyStr)
    (envs : List Envelope) :
    ∀ (a : A) (nm : List Message) (acc : List Envelope),
      ∀ e ∈ (receive_loop ops key envs a nm acc).2.1, e ∈ acc ∨ e ∈ envs := by
  induction envs with
  | nil =>
    intro a nm acc e he
    simp only [receive_loop] at he
    exact Or.inl he
  | cons env rest ih =>
    intro a nm acc e he
    have hstep : ∀ acc' : List Envelope,
        (∀ x ∈ acc', x ∈ acc ∨ x = env) →
        ∀ x ∈ acc', x ∈ acc ∨ x ∈ env :: rest := by
      intro acc' hsub x hx
      rcases hsub x hx with hxa | rfl
      · exact Or.inl hxa
      · exact Or.inr (List.mem_cons_self x rest)
    unfold receive_loop at he
    split_ifs at he with hmem
    · rcases ha : ops.add_envelope_to_archive a key env with err | a' <;>
        simp only [ha] at he
      · rcases List.mem_append.1 he with hxa | hxs
        · exact Or.inl hxa
        · obtain rfl := List.mem_singleton.1 hxs
          exact Or.inr (List.mem_cons_self e rest)
      · rcases ih a' nm (acc ++ [env]) e he with hxa | hxr
        · rcases List.mem_append.1 hxa with h1 | h2
          · exact Or.inl h1
          · obtain rfl := List.mem_singleton.1 h2
            exact Or.inr (List.mem_cons_self e rest)
        · exact Or.inr (List.mem_cons_of_mem env hxr)
    · rcases hb : ops.is_message_in_archive a env.message with err | b <;>
        rw [hb] at he
      · exact Or.inl he
      · cases b
        · rcases ha : ops.add_envelope_to_archive a key env with err | a' <;>
            rw [ha] at he
          · simp only [] at he
            rcases List.mem_append.1 he with hxa | hxs
            · exact Or.inl hxa
            · obtain rfl := List.mem_singleton.1 hxs
              exact Or.inr (List.mem_cons_self e rest)
          · rcases ih a' (nm ++ [env.message]) (acc ++ [env]) e he with hxa | hxr
            · rcases List.mem_append.1 hxa with h1 | h2
              · exact Or.inl h1
              · obtain rfl := List.mem_singleton.1 h2
                exact Or.inr (List.mem_cons_self e rest)
            · exact Or.inr (List.mem_cons_of_mem env hxr)
        · rcases ha : ops.add_envelope_to_archive a key env with err | a' <;>
            simp only [ha] at he
          · exact Or.inl he
          · rcases ih a' nm acc e he with hxa | hxr
            · exact Or.inl hxa
            · exact Or.inr (List.mem_cons_of_mem env hxr)

/-- `receive_payload` preserves the well-signedness invariant, since the
recorded per-sender list only contains (clones of) the trusted payload's
envelopes. -/
theorem receive_payload_preserves_well_signed {A E : Type} (ops : ArchiveOps A E)
    (m : Mailroom) (a : A) (p : TrustedPayload) (t : Nat)
    (hm : m.well_signed_state = true)
    (hp : ∀ e ∈ p.envelopes, e.message.well_signed = true) :
    (m.receive_payload_internal ops a p t).1.well_signed_state = true := by
  have hmh := handle_time_well_signed m t false hm
  rw [well_signed_state_iff] at hmh
  simp only [Mailroom.receive_payload_internal]
  split_ifs with hc
  · rw [well_signed_state_iff]
    exact hmh
  · rcases hloop : receive_loop ops p.certificate.key p.envelopes a
        (m.handle_time t false).new_messages [] with ⟨nm, fwd, a', err⟩
    have hfwd : ∀ e ∈ fwd, e ∈ p.envelopes := by
      intro e he
      have := receive_loop_acc_mem ops p.certificate.key p.envelopes a
        (m.handle_time t false).new_messages [] e (by rw [hloop]; exact he)
      rcases this with h0 | h1
      · exact absurd h0 (List.not_mem_nil e)
      · exact h1
    cases err with
    | some e =>
      rw [well_signed_state_iff]
      exact hmh
    | none =>
      rw [well_signed_state_iff]
      refine ⟨?_, hmh.2.1, hmh.2.2⟩
      intro kv hkv x hx
      rcases List.mem_append.1 hkv with h0 | h1
      · exact hmh.1 kv h0 x hx
      · obtain rfl := List.mem_singleton.1 h1
        exact hp x (hfwd x hx)

end Relay
